import Mathlib

/-
Verification development for the ShramSetu assignment consistency engine.

The repository ships the React dashboard (frontend/src/pages/Jobs.js,
frontend/src/services/api.js) together with two markdown documents that
describe the FastAPI backend (models/job.py, routes/jobs.py, server.py,
models/laborer.py, routes/register.py); the backend source itself is not
part of the checkout.  The engine operations below are therefore modelled
from the specification (spec.md sections 3 to 7) and from the backend
summaries, while the dashboard-side definitions are direct translations of
the JavaScript in frontend/src.

Statuses are the literal strings used by the backend and the dashboard:
"open", "assigned", "completed", "cancelled".  Record identifiers are
UUIDs in the backend; they are modelled as naturals drawn from a
generation counter, which preserves exactly the property the engine relies
on: freshly generated identifiers never collide with existing ones.
-/

namespace ShramSetu

/-- Modelled from the spec: the Laborer (Worker) record of
backend/models/laborer.py as described in ShramSetu_Backend_Summary.md —
id, name, phone, skill, location, language, registered_at, available
(default true). -/
structure Laborer where
  id : Nat
  name : String
  phone : String
  skill : String
  location : String
  language : String
  registered_at : Nat
  available : Bool
deriving Repr, DecidableEq

/-- Modelled from the spec: the Job record of backend/models/job.py as
described in the backend summary — job_id, title, description,
skill_required, location, date, time, contact_number, status
("open" | "assigned" | "completed" | "cancelled"), assigned_laborers
(list of laborer phone numbers, empty at creation), created_at. -/
structure Job where
  job_id : Nat
  title : String
  description : String
  skill_required : String
  location : String
  date : String
  time : String
  contact_number : String
  status : String
  assigned_laborers : List String
  created_at : Nat
deriving Repr, DecidableEq

/-- Modelled from the spec: the document store holding the laborers and
jobs collections, plus the identifier-generation counter standing in for
UUID generation. -/
structure EngineState where
  laborers : List Laborer
  jobs : List Job
  next_id : Nat
deriving Repr, DecidableEq

/-- Modelled from the spec: the error taxonomy of spec section 7
(ValidationError, NotFound, Conflict, InvalidState, StorageError). -/
inductive EngineError where
  | validationError : EngineError
  | notFound : EngineError
  | conflict : EngineError
  | invalidState : EngineError
  | storageError : EngineError
deriving Repr, DecidableEq

/-- Modelled from the spec: the per-phone rejection reasons travelling as
data inside an AssignmentResult (spec section 7). -/
inductive RejectReason where
  | unknownWorker : RejectReason
  | workerUnavailable : RejectReason
deriving Repr, DecidableEq

/-- Modelled from the spec: the AssignmentResult of spec section 4.3 step
5 — count and list of newly assigned phones, and the per-phone reasons for
the rejected ones. -/
structure AssignmentResult where
  assigned_count : Nat
  assigned_laborers : List String
  rejected : List (String × RejectReason)
deriving Repr, DecidableEq

/-- A decimal digit, as matched by the `\d` of the backend's phone
regular expression. -/
def isDigitChar (c : Char) : Bool :=
  decide ('0' ≤ c) && decide (c ≤ '9')

/-- Body of the phone pattern after the optional plus sign: a first digit
1-9 followed by 1 to 14 further digits. -/
def phoneBody : List Char → Bool
  | [] => false
  | c :: rest =>
      (decide ('1' ≤ c) && decide (c ≤ '9')) && rest.all isDigitChar &&
      decide (1 ≤ rest.length) && decide (rest.length ≤ 14)

/-- Modelled from the spec: the phone validation regular expression of
the backend summary, a direct transcription of the pattern
caret plus-question-mark [1-9] digit-1-to-14 dollar. -/
def validPhone (s : String) : Bool :=
  match s.data with
  | '+' :: rest => phoneBody rest
  | cs => phoneBody cs

/-- A required bounded string field: non-empty and within the length cap
stated in the backend summary. -/
def validField (v : String) (maxLen : Nat) : Bool :=
  decide (1 ≤ v.length) && decide (v.length ≤ maxLen)

/-- An optional field of a partial update: valid when absent or when the
provided value passes the field check. -/
def validOpt (o : Option String) (maxLen : Nat) : Bool :=
  match o with
  | none => true
  | some v => validField v maxLen

/-- De-duplication worker: keeps the first occurrence of each phone that
is not in `seen`. -/
def dedupFrom (seen : List String) : List String → List String
  | [] => []
  | p :: ps => if p ∈ seen then dedupFrom seen ps else p :: dedupFrom (p :: seen) ps

/-- Modelled from the spec: step 2 of assignWorkers de-duplicates the
requested phone list, keeping first occurrences. -/
def dedup (ps : List String) : List String := dedupFrom [] ps

/-- Look a job up by its identifier in the jobs collection. -/
def findJob (s : EngineState) (jid : Nat) : Option Job :=
  s.jobs.find? (fun j => j.job_id == jid)

/-- Look a laborer up by phone number, the cross-reference key used by
assignments. -/
def findLaborerByPhone (s : EngineState) (p : String) : Option Laborer :=
  s.laborers.find? (fun w => w.phone == p)

/-- Modelled from the spec: step 3 of assignWorkers — a phone passes
per-phone validation when the referenced laborer exists and is currently
available. -/
def phoneCommits (s : EngineState) (p : String) : Bool :=
  match findLaborerByPhone s p with
  | none => false
  | some w => w.available

/-- Modelled from the spec: the per-phone rejection reason — UnknownWorker
when no laborer carries the phone, WorkerUnavailable when the laborer
exists but is not available, none when the phone passes validation. -/
def phoneReason (s : EngineState) (p : String) : Option RejectReason :=
  match findLaborerByPhone s p with
  | none => some RejectReason.unknownWorker
  | some w => if w.available then none else some RejectReason.workerUnavailable

/-- Modelled from the spec: the de-duplicated request minus the phones
already present in this job's assigned set (step 2: such phones are
skipped as idempotent no-ops, not errors). -/
def freshPhones (job : Job) (phones : List String) : List String :=
  (dedup phones).filter (fun p => decide (p ∉ job.assigned_laborers))

/-- Modelled from the spec: the phones of the request that pass validation
and are committed together (step 4). -/
def committedPhones (s : EngineState) (job : Job) (phones : List String) : List String :=
  (freshPhones job phones).filter (fun p => phoneCommits s p)

/-- Modelled from the spec: the rejected phones of the request paired with
their specific reasons (step 5). -/
def rejectedPhones (s : EngineState) (job : Job) (phones : List String) :
    List (String × RejectReason) :=
  (freshPhones job phones).filterMap (fun p => (phoneReason s p).map (fun r => (p, r)))

/-- Modelled from the spec: the committed state of step 4 — every
committed phone is added to the job's assigned set, the corresponding
laborer's available flag is set false, and the job's status becomes
"assigned" if it was "open" and at least one phone was committed. -/
def assignCommitState (s : EngineState) (jid : Nat) (job : Job) (phones : List String) :
    EngineState :=
  let committed := committedPhones s job phones
  let newStatus := if job.status = "open" ∧ committed ≠ [] then "assigned" else job.status
  let newJob := { job with status := newStatus,
                           assigned_laborers := job.assigned_laborers ++ committed }
  { s with
    laborers := s.laborers.map (fun w =>
      if w.phone ∈ committed then { w with available := false } else w),
    jobs := s.jobs.map (fun j => if j.job_id == jid then newJob else j) }

/-- Modelled from the spec: assignWorkers of spec section 4.3
(PATCH /api/jobs/id/assign in routes/jobs.py, absent from the checkout).
The job must exist and be in state "open" or "assigned", otherwise the
whole call fails with InvalidState and has no effect; per-phone validation
is evaluated independently so that partial success is possible, and the
validated subset is committed together. -/
def assignWorkers (s : EngineState) (jid : Nat) (phones : List String) :
    Except EngineError (AssignmentResult × EngineState) :=
  match findJob s jid with
  | none => Except.error EngineError.invalidState
  | some job =>
      if job.status = "open" ∨ job.status = "assigned" then
        let committed := committedPhones s job phones
        Except.ok ({ assigned_count := committed.length,
                     assigned_laborers := committed,
                     rejected := rejectedPhones s job phones },
                   assignCommitState s jid job phones)
      else Except.error EngineError.invalidState

/-- Modelled from the spec: the internal release primitive of spec section
4.3 — removes the phone from the job's assigned set, sets the laborer
available again, and reverts the job from "assigned" back to "open" when
the set becomes empty (never touching "completed"/"cancelled"); releasing
a phone that is not assigned is an idempotent no-op. -/
def releaseWorker (s : EngineState) (jid : Nat) (p : String) : EngineState :=
  match findJob s jid with
  | none => s
  | some job =>
      if p ∈ job.assigned_laborers then
        let remaining := job.assigned_laborers.filter (fun q => decide (q ≠ p))
        let newStatus := if remaining = [] ∧ job.status = "assigned" then "open" else job.status
        { s with
          laborers := s.laborers.map (fun w =>
            if w.phone = p then { w with available := true } else w),
          jobs := s.jobs.map (fun j =>
            if j.job_id == jid then
              { job with status := newStatus, assigned_laborers := remaining }
            else j) }
      else s

/-- Release a list of phones from a job, one releaseWorker call per
phone. -/
def releaseMany (s : EngineState) (jid : Nat) (ps : List String) : EngineState :=
  ps.foldl (fun acc p => releaseWorker acc jid p) s

/-- Modelled from the spec: deleteJob (DELETE /api/jobs/id) — calls
releaseWorker for every phone currently in the job's assigned set, then
removes the Job record. -/
def deleteJob (s : EngineState) (jid : Nat) : Except EngineError EngineState :=
  match findJob s jid with
  | none => Except.error EngineError.notFound
  | some job =>
      let s1 := releaseMany s jid job.assigned_laborers
      Except.ok { s1 with jobs := s1.jobs.filter (fun j => j.job_id != jid) }

/-- Modelled from the spec: setJobStatus — operator transition of an
"open" or "assigned" job to "completed" or "cancelled".  Transition to
"cancelled" also releases every assigned laborer (same effect as
releaseWorker for each); transition to "completed" keeps the assigned set
recorded and does not release anybody.  Terminal jobs accept no further
transition. -/
def setJobStatus (s : EngineState) (jid : Nat) (target : String) :
    Except EngineError EngineState :=
  if target = "completed" ∨ target = "cancelled" then
    match findJob s jid with
    | none => Except.error EngineError.notFound
    | some job =>
        if job.status = "open" ∨ job.status = "assigned" then
          if target = "cancelled" then
            Except.ok { s with
              laborers := s.laborers.map (fun w =>
                if w.phone ∈ job.assigned_laborers then { w with available := true } else w),
              jobs := s.jobs.map (fun j =>
                if j.job_id == jid then
                  { job with status := "cancelled", assigned_laborers := [] }
                else j) }
          else
            Except.ok { s with
              jobs := s.jobs.map (fun j =>
                if j.job_id == jid then { job with status := "completed" } else j) }
        else Except.error EngineError.invalidState
  else Except.error EngineError.invalidState

/-- Modelled from the spec: the JobUpdate partial-update payload of
backend/models/job.py — every Job field may be provided or omitted,
including the engine-owned status and assigned_laborers, which updateJob
must refuse to write. -/
structure JobUpdate where
  title : Option String := none
  description : Option String := none
  skill_required : Option String := none
  location : Option String := none
  date : Option String := none
  time : Option String := none
  contact_number : Option String := none
  status : Option String := none
  assigned_laborers : Option (List String) := none
deriving Repr, DecidableEq

/-- Modelled from the spec: updateJob (PUT /api/jobs/id) — a partial
merge that rejects direct writes to the engine-owned status and
assigned_laborers fields, validates the provided fields, and merges the
rest into the stored record. -/
def updateJob (s : EngineState) (jid : Nat) (u : JobUpdate) :
    Except EngineError EngineState :=
  if u.status ≠ none ∨ u.assigned_laborers ≠ none then
    Except.error EngineError.validationError
  else
    match findJob s jid with
    | none => Except.error EngineError.notFound
    | some job =>
        if validOpt u.title 200 && validOpt u.description 1000 &&
           validOpt u.skill_required 50 && validOpt u.location 100 &&
           validOpt u.date 100 && validOpt u.time 100 &&
           (match u.contact_number with
            | none => true
            | some c => validPhone c) then
          Except.ok { s with
            jobs := s.jobs.map (fun j =>
              if j.job_id == jid then
                { job with
                  title := u.title.getD job.title,
                  description := u.description.getD job.description,
                  skill_required := u.skill_required.getD job.skill_required,
                  location := u.location.getD job.location,
                  date := u.date.getD job.date,
                  time := u.time.getD job.time,
                  contact_number := u.contact_number.getD job.contact_number }
              else j) }
        else Except.error EngineError.validationError

/-- Modelled from the spec: the LaborerUpdate payload of
backend/models/laborer.py — the editable profile fields plus the
engine-owned available flag, which updateWorker must refuse to write.  The
phone is the cross-reference identity key and is not an editable profile
field. -/
structure LaborerUpdate where
  name : Option String := none
  skill : Option String := none
  location : Option String := none
  language : Option String := none
  available : Option Bool := none
deriving Repr, DecidableEq

/-- Modelled from the spec: updateWorker (PUT /api/laborers/id) — a
partial merge of profile fields that rejects direct writes to the
engine-owned available flag. -/
def updateWorker (s : EngineState) (wid : Nat) (u : LaborerUpdate) :
    Except EngineError EngineState :=
  if u.available ≠ none then Except.error EngineError.validationError
  else
    match s.laborers.find? (fun w => w.id == wid) with
    | none => Except.error EngineError.notFound
    | some w =>
        if validOpt u.name 100 && validOpt u.skill 50 &&
           validOpt u.location 100 && validOpt u.language 30 then
          Except.ok { s with
            laborers := s.laborers.map (fun v =>
              if v.id == wid then
                { w with
                  name := u.name.getD w.name,
                  skill := u.skill.getD w.skill,
                  location := u.location.getD w.location,
                  language := u.language.getD w.language }
              else v) }
        else Except.error EngineError.validationError

/-- Modelled from the spec: registerWorker (POST /api/laborers/register)
— validates the required fields and the phone shape, fails with Conflict
when the phone already exists on another record, and otherwise inserts a
new available laborer with a freshly generated identifier. -/
def registerWorker (s : EngineState) (name skill location language phone : String) :
    Except EngineError EngineState :=
  if validField name 100 && validField skill 50 && validField location 100 &&
     validField language 30 && validPhone phone then
    if s.laborers.any (fun w => w.phone == phone) then
      Except.error EngineError.conflict
    else
      Except.ok { s with
        laborers := s.laborers ++
          [{ id := s.next_id, name := name, phone := phone, skill := skill,
             location := location, language := language,
             registered_at := s.next_id, available := true }],
        next_id := s.next_id + 1 }
  else Except.error EngineError.validationError

/-- Modelled from the spec: createJob (POST /api/jobs/create) — validates
the required fields and the contact number, and inserts a new job with a
fresh identifier, status "open" and an empty assigned set. -/
def createJob (s : EngineState)
    (title description skillRequired location date time contactNumber : String) :
    Except EngineError EngineState :=
  if validField title 200 && validField description 1000 &&
     validField skillRequired 50 && validField location 100 &&
     validField date 100 && validField time 100 && validPhone contactNumber then
    Except.ok { s with
      jobs := s.jobs ++
        [{ job_id := s.next_id, title := title, description := description,
           skill_required := skillRequired, location := location, date := date,
           time := time, contact_number := contactNumber, status := "open",
           assigned_laborers := [], created_at := s.next_id }],
      next_id := s.next_id + 1 }
  else Except.error EngineError.validationError

/-- Modelled from the spec: deleteWorker (DELETE /api/laborers/id) under
policy (a) of spec section 4.2 — deleting a laborer whose phone is
currently present in any job's assigned set is refused with Conflict;
otherwise the record is removed. -/
def deleteWorker (s : EngineState) (wid : Nat) : Except EngineError EngineState :=
  match s.laborers.find? (fun w => w.id == wid) with
  | none => Except.error EngineError.notFound
  | some w =>
      if s.jobs.any (fun j => j.assigned_laborers.contains w.phone) then
        Except.error EngineError.conflict
      else
        Except.ok { s with laborers := s.laborers.filter (fun v => v.id != wid) }

/-- One externally triggered engine operation (spec section 6): the
requests that the excluded API layer translates into engine calls. -/
inductive Op where
  | reg (name skill location language phone : String) : Op
  | create (title description skillRequired location date time contactNumber : String) : Op
  | assign (jid : Nat) (phones : List String) : Op
  | updJob (jid : Nat) (u : JobUpdate) : Op
  | updWorker (wid : Nat) (u : LaborerUpdate) : Op
  | setStatus (jid : Nat) (target : String) : Op
  | delJob (jid : Nat) : Op
  | delWorker (wid : Nat) : Op
deriving Repr

/-- Keep the previous state when an operation fails: a failed engine call
has no effect on the store (spec section 4.3, failure semantics). -/
def orKeep (s : EngineState) : Except EngineError EngineState → EngineState
  | Except.ok s' => s'
  | Except.error _ => s

/-- Apply one operation to the store, keeping the store unchanged when the
operation fails. -/
def applyOp (s : EngineState) (op : Op) : EngineState :=
  match op with
  | Op.reg n sk loc lang ph => orKeep s (registerWorker s n sk loc lang ph)
  | Op.create t d sk loc da ti c => orKeep s (createJob s t d sk loc da ti c)
  | Op.assign jid ps => orKeep s ((assignWorkers s jid ps).map Prod.snd)
  | Op.updJob jid u => orKeep s (updateJob s jid u)
  | Op.updWorker wid u => orKeep s (updateWorker s wid u)
  | Op.setStatus jid t => orKeep s (setJobStatus s jid t)
  | Op.delJob jid => orKeep s (deleteJob s jid)
  | Op.delWorker wid => orKeep s (deleteWorker s wid)

/-- The empty store the deployment starts from. -/
def initState : EngineState := { laborers := [], jobs := [], next_id := 0 }

/-- Run a sequence of externally triggered operations from the empty
store.  Spec section 5 requires all mutating operations to be serialized,
so an arbitrary interleaving of concurrent requests is observed as some
sequential order of the same calls: quantifying over all operation lists
quantifies over all interleavings. -/
def run (ops : List Op) : EngineState := ops.foldl applyOp initState

/-- Set a laborer available again when its phone is in the released set;
the pointwise effect of a sequence of releaseWorker calls on the laborers
collection. -/
def freeIfIn (ps : List String) (w : Laborer) : Laborer :=
  if w.phone ∈ ps then { w with available := true } else w

/-- Remove a set of phones from a job's assigned set, reverting
"assigned" to "open" when the set becomes empty; the accumulated effect of
a sequence of releaseWorker calls on the job. -/
def removePhones (ps : List String) (job : Job) : Job :=
  let remaining := job.assigned_laborers.filter (fun q => decide (q ∉ ps))
  { job with
    status := if remaining = [] ∧ job.status = "assigned" then "open" else job.status,
    assigned_laborers := remaining }

/-- The cross-entity consistency invariant the engine maintains over the
two collections: generated identifiers are fresh and unique, laborer
phones are unique, assigned phones reference existing laborers, the
available flag mirrors assigned-set membership, no phone is held by two
different jobs, statuses are the four legal strings, "open" and
"cancelled" jobs hold no laborers, and "assigned" jobs hold at least
one. -/
def WF (s : EngineState) : Prop :=
  (∀ w ∈ s.laborers, w.id < s.next_id) ∧
  ((s.laborers.map Laborer.id).Nodup) ∧
  ((s.laborers.map Laborer.phone).Nodup) ∧
  (∀ j ∈ s.jobs, j.job_id < s.next_id) ∧
  ((s.jobs.map Job.job_id).Nodup) ∧
  (∀ j ∈ s.jobs, j.assigned_laborers.Nodup) ∧
  (∀ j ∈ s.jobs, ∀ p ∈ j.assigned_laborers, ∃ w ∈ s.laborers, w.phone = p) ∧
  (∀ w ∈ s.laborers, (w.available = false ↔ ∃ j ∈ s.jobs, w.phone ∈ j.assigned_laborers)) ∧
  (∀ j1 ∈ s.jobs, ∀ j2 ∈ s.jobs, j1.job_id ≠ j2.job_id →
    ∀ p ∈ j1.assigned_laborers, p ∉ j2.assigned_laborers) ∧
  (∀ j ∈ s.jobs, j.status = "open" ∨ j.status = "assigned" ∨
    j.status = "completed" ∨ j.status = "cancelled") ∧
  (∀ j ∈ s.jobs, j.status = "open" → j.assigned_laborers = []) ∧
  (∀ j ∈ s.jobs, j.status = "assigned" → j.assigned_laborers ≠ []) ∧
  (∀ j ∈ s.jobs, j.status = "cancelled" → j.assigned_laborers = [])

instance decidableWF (s : EngineState) : Decidable (WF s) := by
  unfold WF
  infer_instance

/-- Rewrite every laborer's skill field, leaving everything else in the
store untouched; used to state that the engine's assignment decisions
never read a laborer's skill. -/
def mapWorkerSkills (f : String → String) (s : EngineState) : EngineState :=
  { s with laborers := s.laborers.map (fun w => { w with skill := f w.skill }) }

/-- From frontend/src/pages/Jobs.js: the job card renders the
"Assign Laborers" button exactly when `job.status === 'open'`. -/
def jobCardOffersAssign (job : Job) : Bool := job.status == "open"

/-- From frontend/src/pages/Jobs.js (getAvailableLaborers): the modal
lists the laborers that are available and either match the selected job's
required skill or whose job requires the skill "any". -/
def getAvailableLaborers (laborers : List Laborer) (selectedJob : Job) : List Laborer :=
  laborers.filter (fun laborer =>
    laborer.available &&
      (selectedJob.skill_required == "any" || laborer.skill == selectedJob.skill_required))

/-- From frontend/src/pages/Jobs.js: the component state driving the
assignment modal — the selected job (doubling as the modal visibility,
which the code only turns on together with a selected job) and the set of
checked laborer phones. -/
structure UIState where
  selected_job : Option Job
  selected_laborers : List String
deriving Repr, DecidableEq

/-- The user interactions of the Jobs page that touch the assignment
modal. -/
inductive UIEvent where
  | clickAssign (job : Job) : UIEvent
  | toggleLaborer (phone : String) : UIEvent
  | confirmAssign : UIEvent
  | cancelModal : UIEvent
deriving Repr

/-- From frontend/src/pages/Jobs.js: one step of the assignment modal.
The "Assign Laborers" button exists only on cards whose job status is
"open" (jobCardOffersAssign); confirming with handleAssignLaborers issues
`jobAPI.assignLaborers(selectedJob.job_id, selectedLaborers)` — modelled
as emitting the selected job together with the phones — and only when at
least one laborer is checked; cancelling clears the selection. -/
def uiStep (u : UIState) : UIEvent → UIState × List (Job × List String)
  | UIEvent.clickAssign job =>
      if jobCardOffersAssign job then
        ({ u with selected_job := some job }, [])
      else (u, [])
  | UIEvent.toggleLaborer p =>
      ({ u with selected_laborers :=
          if p ∈ u.selected_laborers then
            u.selected_laborers.filter (fun q => decide (q ≠ p))
          else u.selected_laborers ++ [p] }, [])
  | UIEvent.confirmAssign =>
      match u.selected_job with
      | some j =>
          if u.selected_laborers ≠ [] then
            ({ selected_job := none, selected_laborers := [] }, [(j, u.selected_laborers)])
          else (u, [])
      | none => (u, [])
  | UIEvent.cancelModal => ({ selected_job := none, selected_laborers := [] }, [])

/-- Run a sequence of user interactions, collecting every assignment
request the page issues. -/
def uiRun (u : UIState) : List UIEvent → UIState × List (Job × List String)
  | [] => (u, [])
  | e :: es =>
      let r1 := uiStep u e
      let r2 := uiRun r1.1 es
      (r2.1, r1.2 ++ r2.2)

/-- The initial Jobs-page state: no job selected, no laborers checked. -/
def uiInit : UIState := { selected_job := none, selected_laborers := [] }

/-- The laborer phone used throughout the concrete scenarios (the example
phone of the backend summary). -/
def phoneA : String := "+919876543210"

/-- Concrete scenario: register one mason and create one job. -/
def traceBase : List Op :=
  [Op.reg "Raju" "mason" "Tilak Nagar" "hindi" phoneA,
   Op.create "House Construction" "Need an experienced mason" "mason" "Delhi"
     "2025-07-15" "0800" "+919876543211"]

/-- Concrete scenario: the mason is then assigned to the job (job_id 1). -/
def traceAssigned : List Op := traceBase ++ [Op.assign 1 [phoneA]]

/-- Concrete scenario: the assigned job is then completed. -/
def traceCompleted : List Op := traceAssigned ++ [Op.setStatus 1 "completed"]

/-- The store after registering, creating and assigning. -/
def sAssigned : EngineState := run traceAssigned

/-- The store after the assigned job has been completed. -/
def sCompleted : EngineState := run traceCompleted

deriving instance DecidableEq for Except

/-- The result record of re-requesting an already-assigned phone. -/
def repeatAssignResult : AssignmentResult :=
  match assignWorkers sAssigned 1 [phoneA] with
  | Except.ok (r, _) => r
  | Except.error _ => { assigned_count := 0, assigned_laborers := [], rejected := [] }

/-- The job record held in sAssigned: status "assigned", one laborer. -/
def jobAssignedRecord : Job :=
  { job_id := 1, title := "House Construction", description := "Need an experienced mason",
    skill_required := "mason", location := "Delhi", date := "2025-07-15", time := "0800",
    contact_number := "+919876543211", status := "assigned", assigned_laborers := [phoneA],
    created_at := 1 }

/-- The laborer record held in sAssigned: marked unavailable by the
assignment. -/
def laborerRajuUnavailable : Laborer :=
  { id := 0, name := "Raju", phone := phoneA, skill := "mason", location := "Tilak Nagar",
    language := "hindi", registered_at := 0, available := false }

/-- A partial job update that tries to write the engine-owned status
field. -/
def updateWritingStatus : JobUpdate := { status := some "completed" }

/-- A partial job update touching only the title. -/
def updateTitleOnly : JobUpdate := { title := some "Renovation work" }

/-- The store after applying the title-only update to the assigned job. -/
def sRetitled : EngineState := orKeep sAssigned (updateJob sAssigned 1 updateTitleOnly)

/-- The job record held in sOpen, before any assignment. -/
def jobOpenRecord : Job :=
  { job_id := 1, title := "House Construction", description := "Need an experienced mason",
    skill_required := "mason", location := "Delhi", date := "2025-07-15", time := "0800",
    contact_number := "+919876543211", status := "open", assigned_laborers := [],
    created_at := 1 }

/-- The job record held in sCompleted: completed with its assigned set
still recorded. -/
def jobCompletedRecord : Job := { jobAssignedRecord with status := "completed" }

/-- The store after registering and creating, before assignment. -/
def sOpen : EngineState := run traceBase

/-- Concrete scenario with a second, still-open job next to the assigned
one. -/
def traceTwoJobs : List Op := traceAssigned ++
  [Op.create "Second job" "Another mason job" "mason" "Delhi" "2025-07-16" "0900"
    "+919876543212"]

/-- The second job record of traceTwoJobs. -/
def jobSecondRecord : Job :=
  { job_id := 2, title := "Second job", description := "Another mason job",
    skill_required := "mason", location := "Delhi", date := "2025-07-16", time := "0900",
    contact_number := "+919876543212", status := "open", assigned_laborers := [],
    created_at := 2 }

theorem mem_dedupFrom {p : String} : ∀ (seen ps : List String),
    p ∈ dedupFrom seen ps ↔ p ∈ ps ∧ p ∉ seen
  | seen, [] => by simp [dedupFrom]
  | seen, q :: ps => by
    by_cases hq : q ∈ seen
    · rw [dedupFrom, if_pos hq, mem_dedupFrom seen ps]
      constructor
      · rintro ⟨hp, hns⟩
        exact ⟨List.mem_cons_of_mem _ hp, hns⟩
      · rintro ⟨hp, hns⟩
        rcases List.mem_cons.mp hp with h | h
        · exact absurd (h ▸ hq) hns
        · exact ⟨h, hns⟩
    · rw [dedupFrom, if_neg hq, List.mem_cons, mem_dedupFrom (q :: seen) ps]
      constructor
      · rintro (h | ⟨hp, hns⟩)
        · subst h
          exact ⟨List.mem_cons_self _ _, hq⟩
        · exact ⟨List.mem_cons_of_mem _ hp,
            fun hs => hns (List.mem_cons_of_mem _ hs)⟩
      · rintro ⟨hp, hns⟩
        rcases List.mem_cons.mp hp with h | h
        · exact Or.inl h
        · by_cases hpq : p = q
          · exact Or.inl hpq
          · exact Or.inr ⟨h, fun hs => (List.mem_cons.mp hs).elim hpq hns⟩

theorem nodup_dedupFrom : ∀ (seen ps : List String), (dedupFrom seen ps).Nodup
  | _, [] => by simp [dedupFrom]
  | seen, q :: ps => by
    by_cases hq : q ∈ seen
    · rw [dedupFrom, if_pos hq]
      exact nodup_dedupFrom seen ps
    · rw [dedupFrom, if_neg hq]
      refine List.nodup_cons.mpr ⟨?_, nodup_dedupFrom (q :: seen) ps⟩
      intro hmem
      exact ((mem_dedupFrom _ _).mp hmem).2 (List.mem_cons_self _ _)

theorem mem_dedup {p : String} {ps : List String} : p ∈ dedup ps ↔ p ∈ ps := by
  unfold dedup
  rw [mem_dedupFrom]
  simp

theorem nodup_dedup (ps : List String) : (dedup ps).Nodup := nodup_dedupFrom [] ps

theorem findJob_job_id {s : EngineState} {jid : Nat} {job : Job}
    (h : findJob s jid = some job) : job.job_id = jid := by
  have := List.find?_some h
  simpa using this

theorem findJob_mem {s : EngineState} {jid : Nat} {job : Job}
    (h : findJob s jid = some job) : job ∈ s.jobs :=
  List.mem_of_find?_eq_some h

theorem findJob_eq_none {s : EngineState} {jid : Nat} :
    findJob s jid = none ↔ ∀ j ∈ s.jobs, j.job_id ≠ jid := by
  unfold findJob
  rw [List.find?_eq_none]
  simp

theorem findLaborerByPhone_phone {s : EngineState} {p : String} {w : Laborer}
    (h : findLaborerByPhone s p = some w) : w.phone = p := by
  have := List.find?_some h
  simpa using this

theorem findLaborerByPhone_mem {s : EngineState} {p : String} {w : Laborer}
    (h : findLaborerByPhone s p = some w) : w ∈ s.laborers :=
  List.mem_of_find?_eq_some h

theorem findLaborerByPhone_eq_none {s : EngineState} {p : String} :
    findLaborerByPhone s p = none ↔ ∀ w ∈ s.laborers, w.phone ≠ p := by
  unfold findLaborerByPhone
  rw [List.find?_eq_none]
  simp

theorem mem_freshPhones {job : Job} {phones : List String} {p : String} :
    p ∈ freshPhones job phones ↔ p ∈ phones ∧ p ∉ job.assigned_laborers := by
  unfold freshPhones
  rw [List.mem_filter]
  simp [mem_dedup]

theorem nodup_freshPhones (job : Job) (phones : List String) :
    (freshPhones job phones).Nodup :=
  List.Nodup.filter _ (nodup_dedup phones)

theorem mem_committedPhones {s : EngineState} {job : Job} {phones : List String}
    {p : String} :
    p ∈ committedPhones s job phones ↔
      p ∈ phones ∧ p ∉ job.assigned_laborers ∧ phoneCommits s p = true := by
  unfold committedPhones
  rw [List.mem_filter, mem_freshPhones]
  tauto

theorem nodup_committedPhones (s : EngineState) (job : Job) (phones : List String) :
    (committedPhones s job phones).Nodup :=
  List.Nodup.filter _ (nodup_freshPhones job phones)

theorem mem_rejectedPhones {s : EngineState} {job : Job} {phones : List String}
    {p : String} {r : RejectReason} :
    (p, r) ∈ rejectedPhones s job phones ↔
      p ∈ phones ∧ p ∉ job.assigned_laborers ∧ phoneReason s p = some r := by
  unfold rejectedPhones
  rw [List.mem_filterMap]
  constructor
  · rintro ⟨q, hq, hmap⟩
    rcases Option.map_eq_some'.mp hmap with ⟨r', hr', heq⟩
    rw [Prod.mk.injEq] at heq
    obtain ⟨rfl, rfl⟩ := heq
    rcases mem_freshPhones.mp hq with ⟨hp, hnp⟩
    exact ⟨hp, hnp, hr'⟩
  · rintro ⟨hp, hnp, hr⟩
    exact ⟨p, mem_freshPhones.mpr ⟨hp, hnp⟩, by rw [hr]; rfl⟩

theorem phoneReason_eq_none {s : EngineState} {p : String} :
    phoneReason s p = none ↔ phoneCommits s p = true := by
  unfold phoneReason phoneCommits
  cases h : findLaborerByPhone s p with
  | none => simp
  | some w =>
    by_cases hw : w.available = true
    · simp [hw]
    · simp [hw]

theorem eq_of_mem_job_id {jobs : List Job} {jid : Nat} {job j : Job}
    (hnd : (jobs.map Job.job_id).Nodup)
    (hfind : jobs.find? (fun j => j.job_id == jid) = some job)
    (hj : j ∈ jobs) (hjid : j.job_id = jid) : j = job := by
  have hmem := List.mem_of_find?_eq_some hfind
  have hid : job.job_id = jid := by simpa using List.find?_some hfind
  exact List.inj_on_of_nodup_map hnd hj hmem (by rw [hjid, hid])

theorem find?_map_ite {jobs : List Job} {jid : Nat} {job nj : Job}
    (hfind : jobs.find? (fun j => j.job_id == jid) = some job)
    (hid : nj.job_id = jid) :
    (jobs.map (fun j => if j.job_id == jid then nj else j)).find?
      (fun j => j.job_id == jid) = some nj := by
  induction jobs with
  | nil => simp at hfind
  | cons a l ih =>
    by_cases ha : a.job_id = jid
    · have hb : (a.job_id == jid) = true := by simpa using ha
      simp only [List.map_cons, if_pos hb]
      exact List.find?_cons_of_pos _ (by simpa using hid)
    · have hb : ¬ (a.job_id == jid) = true := by simpa using ha
      have h2 : List.find? (fun j => j.job_id == jid) (a :: l) =
          List.find? (fun j => j.job_id == jid) l :=
        List.find?_cons_of_neg _ hb
      rw [h2] at hfind
      simp only [List.map_cons, if_neg hb]
      have h3 : List.find? (fun j => j.job_id == jid)
          (a :: List.map (fun j => if (j.job_id == jid) = true then nj else j) l) =
          List.find? (fun j => j.job_id == jid)
            (List.map (fun j => if (j.job_id == jid) = true then nj else j) l) :=
        List.find?_cons_of_neg _ hb
      rw [h3]
      exact ih hfind

theorem map_job_id_ite {jobs : List Job} {jid : Nat} {nj : Job}
    (hid : nj.job_id = jid) :
    (jobs.map (fun j => if j.job_id == jid then nj else j)).map Job.job_id =
      jobs.map Job.job_id := by
  rw [List.map_map]
  refine List.map_congr_left ?_
  intro j _
  by_cases h : j.job_id = jid
  · have hb : (j.job_id == jid) = true := by simpa using h
    simp [Function.comp, hb, hid, h]
  · have hb : ¬ (j.job_id == jid) = true := by simpa using h
    simp [Function.comp, hb]

theorem mem_map_ite_job {jobs : List Job} {jid : Nat} {nj j' : Job}
    (h : j' ∈ jobs.map (fun j => if j.job_id == jid then nj else j)) :
    j' = nj ∨ (j' ∈ jobs ∧ j'.job_id ≠ jid) := by
  rcases List.mem_map.mp h with ⟨j, hj, hj'⟩
  by_cases hid : j.job_id = jid
  · left
    rw [← hj']
    simp [hid]
  · right
    have hb : ¬ (j.job_id == jid) = true := by simpa using hid
    rw [← hj']
    rw [if_neg hb]
    exact ⟨hj, hid⟩

theorem mem_map_ite_of_ne {jobs : List Job} {jid : Nat} {nj j : Job}
    (hj : j ∈ jobs) (h : j.job_id ≠ jid) :
    j ∈ jobs.map (fun j => if j.job_id == jid then nj else j) := by
  have hb : ¬ (j.job_id == jid) = true := by simpa using h
  refine List.mem_map.mpr ⟨j, hj, ?_⟩
  rw [if_neg hb]

theorem mem_map_ite_new {jobs : List Job} {jid : Nat} {nj j : Job}
    (hj : j ∈ jobs) (h : j.job_id = jid) :
    nj ∈ jobs.map (fun j => if j.job_id == jid then nj else j) := by
  have hb : (j.job_id == jid) = true := by simpa using h
  refine List.mem_map.mpr ⟨j, hj, ?_⟩
  rw [if_pos hb]

theorem filter_ne_notmem (A : List String) (p : String) (ps : List String) :
    (A.filter (fun q => decide (q ≠ p))).filter (fun q => decide (q ∉ ps)) =
      A.filter (fun q => decide (q ∉ p :: ps)) := by
  rw [List.filter_filter]
  refine List.filter_congr ?_
  intro q _
  by_cases h1 : q = p <;> by_cases h2 : q ∈ ps <;> simp [h1, h2]

theorem removePhones_cons (job : Job) (p : String) (ps : List String) :
    removePhones ps
      { job with
        status :=
          if job.assigned_laborers.filter (fun q => decide (q ≠ p)) = [] ∧
              job.status = "assigned" then "open" else job.status,
        assigned_laborers := job.assigned_laborers.filter (fun q => decide (q ≠ p)) } =
      removePhones (p :: ps) job := by
  unfold removePhones
  simp only [filter_ne_notmem]
  by_cases c1 : job.assigned_laborers.filter (fun q => decide (q ≠ p)) = [] ∧
      job.status = "assigned"
  · rw [if_pos c1]
    have hR : job.assigned_laborers.filter (fun q => decide (q ∉ p :: ps)) = [] := by
      rw [← filter_ne_notmem, c1.1]
      rfl
    have : ¬ (job.assigned_laborers.filter (fun q => decide (q ∉ p :: ps)) = [] ∧
        ("open" : String) = "assigned") := by
      rintro ⟨-, h⟩
      exact absurd h (by decide)
    rw [if_neg this, if_pos ⟨hR, c1.2⟩]
  · rw [if_neg c1]

theorem releaseMany_eq {jid : Nat} {ps : List String} :
    ∀ {s : EngineState} {job : Job},
    findJob s jid = some job →
    (s.jobs.map Job.job_id).Nodup →
    ps.Nodup →
    (∀ p ∈ ps, p ∈ job.assigned_laborers) →
    (job.status = "assigned" → job.assigned_laborers ≠ []) →
    releaseMany s jid ps =
      { s with
        laborers := s.laborers.map (freeIfIn ps),
        jobs := s.jobs.map (fun j => if j.job_id == jid then removePhones ps job else j) } := by
  induction ps with
  | nil =>
    intro s job hfind hnd _ _ hne
    have hjob : removePhones [] job = job := by
      unfold removePhones
      have hfil : job.assigned_laborers.filter (fun q => decide (q ∉ ([] : List String))) =
          job.assigned_laborers :=
        List.filter_eq_self.mpr (fun a _ => by simp)
      simp only [hfil]
      by_cases hs : job.status = "assigned"
      · rw [if_neg (fun hc => hne hs hc.1)]
      · rw [if_neg (fun hc => hs hc.2)]
    have hlab : s.laborers.map (freeIfIn []) = s.laborers := by
      rw [show s.laborers.map (freeIfIn []) = s.laborers.map id from
        List.map_congr_left (fun w _ => by simp [freeIfIn])]
      exact List.map_id _
    have hjobs : s.jobs.map (fun j => if j.job_id == jid then removePhones [] job else j) =
        s.jobs := by
      rw [show s.jobs.map (fun j => if j.job_id == jid then removePhones [] job else j) =
          s.jobs.map id from List.map_congr_left ?_]
      · exact List.map_id _
      · intro j hj
        by_cases h : j.job_id = jid
        · have hb : (j.job_id == jid) = true := by simpa using h
          rw [if_pos hb, hjob]
          exact (eq_of_mem_job_id hnd hfind hj h).symm
        · have hb : ¬ (j.job_id == jid) = true := by simpa using h
          rw [if_neg hb]
          rfl
    show s = _
    rw [hlab, hjobs]
  | cons p ps ih =>
    intro s job hfind hnd hps hsub hne
    have hidjob : job.job_id = jid := findJob_job_id hfind
    have hp : p ∈ job.assigned_laborers := hsub p (List.mem_cons_self _ _)
    have hpps : p ∉ ps := (List.nodup_cons.mp hps).1
    have hrw : releaseWorker s jid p =
        { s with
          laborers := s.laborers.map (fun w =>
            if w.phone = p then { w with available := true } else w),
          jobs := s.jobs.map (fun j =>
            if j.job_id == jid then
              { job with
                status :=
                  if job.assigned_laborers.filter (fun q => decide (q ≠ p)) = [] ∧
                      job.status = "assigned" then "open" else job.status,
                assigned_laborers :=
                  job.assigned_laborers.filter (fun q => decide (q ≠ p)) }
            else j) } := by
      unfold releaseWorker
      rw [hfind]
      exact if_pos hp
    have hstep : releaseMany s jid (p :: ps) = releaseMany (releaseWorker s jid p) jid ps := rfl
    rw [hstep, hrw]
    have hfind1 : findJob
        { s with
          laborers := s.laborers.map (fun w =>
            if w.phone = p then { w with available := true } else w),
          jobs := s.jobs.map (fun j =>
            if j.job_id == jid then
              { job with
                status :=
                  if job.assigned_laborers.filter (fun q => decide (q ≠ p)) = [] ∧
                      job.status = "assigned" then "open" else job.status,
                assigned_laborers :=
                  job.assigned_laborers.filter (fun q => decide (q ≠ p)) }
            else j) } jid = some
          { job with
            status :=
              if job.assigned_laborers.filter (fun q => decide (q ≠ p)) = [] ∧
                  job.status = "assigned" then "open" else job.status,
            assigned_laborers :=
              job.assigned_laborers.filter (fun q => decide (q ≠ p)) } :=
      find?_map_ite hfind hidjob
    have hidjob1 : ({ job with
        status :=
          if job.assigned_laborers.filter (fun q => decide (q ≠ p)) = [] ∧
              job.status = "assigned" then "open" else job.status,
        assigned_laborers :=
          job.assigned_laborers.filter (fun q => decide (q ≠ p)) } : Job).job_id = jid :=
      hidjob
    have hnd1 : ((s.jobs.map (fun j =>
        if j.job_id == jid then
          { job with
            status :=
              if job.assigned_laborers.filter (fun q => decide (q ≠ p)) = [] ∧
                  job.status = "assigned" then "open" else job.status,
            assigned_laborers :=
              job.assigned_laborers.filter (fun q => decide (q ≠ p)) }
        else j)).map Job.job_id).Nodup := by
      rw [map_job_id_ite hidjob1]
      exact hnd
    have hps1 : ps.Nodup := (List.nodup_cons.mp hps).2
    have hsub1 : ∀ q ∈ ps,
        q ∈ job.assigned_laborers.filter (fun q => decide (q ≠ p)) := by
      intro q hq
      refine List.mem_filter.mpr ⟨hsub q (List.mem_cons_of_mem _ hq), ?_⟩
      simp only [decide_eq_true_eq]
      intro hqp
      exact hpps (hqp ▸ hq)
    have hne1 :
        (if job.assigned_laborers.filter (fun q => decide (q ≠ p)) = [] ∧
            job.status = "assigned" then "open" else job.status) = "assigned" →
        job.assigned_laborers.filter (fun q => decide (q ≠ p)) ≠ [] := by
      by_cases c : job.assigned_laborers.filter (fun q => decide (q ≠ p)) = [] ∧
          job.status = "assigned"
      · rw [if_pos c]
        intro h
        exact absurd h (by decide)
      · rw [if_neg c]
        intro hs hf
        exact c ⟨hf, hs⟩
    rw [ih hfind1 hnd1 hps1 hsub1 hne1]
    simp only [EngineState.mk.injEq]
    refine ⟨?_, ?_, trivial⟩
    · rw [List.map_map]
      refine List.map_congr_left ?_
      intro w _
      by_cases hwp : w.phone = p
      · by_cases hwps : w.phone ∈ ps <;>
          simp [Function.comp, freeIfIn, hwp, hwps, List.mem_cons]
      · by_cases hwps : w.phone ∈ ps <;>
          simp [Function.comp, freeIfIn, hwp, hwps, List.mem_cons]
    · rw [List.map_map]
      refine List.map_congr_left ?_
      intro j _
      by_cases h : j.job_id = jid
      · have hb : (j.job_id == jid) = true := by simpa using h
        simp only [Function.comp, if_pos hb]
        have hb1 : (({ job with
            status :=
              if job.assigned_laborers.filter (fun q => decide (q ≠ p)) = [] ∧
                  job.status = "assigned" then "open" else job.status,
            assigned_laborers :=
              job.assigned_laborers.filter (fun q => decide (q ≠ p)) } : Job).job_id == jid) =
            true := by simpa using hidjob
        rw [if_pos hb1]
        exact removePhones_cons job p ps
      · have hb : ¬ (j.job_id == jid) = true := by simpa using h
        simp only [Function.comp, if_neg hb]

theorem deleteJob_eq {s : EngineState} {jid : Nat} {job : Job}
    (hfind : findJob s jid = some job)
    (hnd : (s.jobs.map Job.job_id).Nodup)
    (hand : job.assigned_laborers.Nodup)
    (hne : job.status = "assigned" → job.assigned_laborers ≠ []) :
    deleteJob s jid = Except.ok
      { s with
        laborers := s.laborers.map (freeIfIn job.assigned_laborers),
        jobs := s.jobs.filter (fun j => j.job_id != jid) } := by
  unfold deleteJob
  rw [hfind]
  show Except.ok _ = _
  rw [show releaseMany s jid job.assigned_laborers = _ from
    releaseMany_eq hfind hnd hand (fun p hp => hp) hne]
  congr 1
  simp only [EngineState.mk.injEq]
  refine ⟨trivial, ?_, trivial⟩
  rw [List.filter_map]
  have hpf : ∀ j ∈ s.jobs,
      ((fun j => j.job_id != jid) ∘
        (fun j => if j.job_id == jid then removePhones job.assigned_laborers job else j)) j =
      (fun j => j.job_id != jid) j := by
    intro j _
    have hidjob : job.job_id = jid := findJob_job_id hfind
    by_cases h : j.job_id = jid
    · have hb : (j.job_id == jid) = true := by simpa using h
      simp [Function.comp, hb, if_pos hb, removePhones, hidjob, h]
    · have hb : ¬ (j.job_id == jid) = true := by simpa using h
      simp [Function.comp, h]
  rw [List.filter_congr hpf]
  refine Eq.trans (List.map_congr_left ?_) (List.map_id _)
  intro j hj
  have hmem := List.mem_filter.mp hj
  have h : ¬ (j.job_id == jid) = true := by
    have := hmem.2
    simp only [bne_iff_ne, ne_eq] at this
    simpa using this
  rw [if_neg h]
  rfl

theorem phoneCommits_iff {s : EngineState} {p : String} :
    phoneCommits s p = true ↔
      ∃ w, findLaborerByPhone s p = some w ∧ w.available = true := by
  unfold phoneCommits
  cases h : findLaborerByPhone s p <;> simp

theorem phoneReason_unknown_iff {s : EngineState} {p : String} :
    phoneReason s p = some RejectReason.unknownWorker ↔
      findLaborerByPhone s p = none := by
  unfold phoneReason
  cases h : findLaborerByPhone s p with
  | none => simp
  | some w => by_cases hw : w.available = true <;> simp [hw]

theorem phoneReason_unavailable_iff {s : EngineState} {p : String} :
    phoneReason s p = some RejectReason.workerUnavailable ↔
      ∃ w, findLaborerByPhone s p = some w ∧ w.available = false := by
  unfold phoneReason
  cases h : findLaborerByPhone s p with
  | none => simp
  | some w =>
    by_cases hw : w.available = true <;> simp [hw]

theorem mem_map_mark_unavailable {ws : List Laborer} {committed : List String} {w : Laborer}
    (hw : w ∈ ws.map (fun w => if w.phone ∈ committed then { w with available := false } else w))
    (hwp : w.phone ∈ committed) : w.available = false := by
  rcases List.mem_map.mp hw with ⟨w0, _, rfl⟩
  by_cases hmem : w0.phone ∈ committed
  · rw [if_pos hmem]
  · rw [if_neg hmem] at hwp
    exact absurd hwp hmem

/-- C6: when the job does not exist or is in a terminal state ("completed"
or "cancelled"), the whole assignWorkers call fails with InvalidState and
the store is left completely unchanged — no phone is committed and no
laborer's availability changes; terminal jobs accept no assignment. -/
theorem assignWorkers_terminal_rejected (s : EngineState) (jid : Nat) (phones : List String) :
    ((findJob s jid = none ∨
        ∃ job, findJob s jid = some job ∧
          (job.status = "completed" ∨ job.status = "cancelled")) →
      assignWorkers s jid phones = Except.error EngineError.invalidState ∧
        applyOp s (Op.assign jid phones) = s) ∧
    (∀ (target : String) (job : Job), findJob s jid = some job →
      (job.status = "completed" ∨ job.status = "cancelled") →
      setJobStatus s jid target = Except.error EngineError.invalidState ∧
        applyOp s (Op.setStatus jid target) = s) := by
  constructor
  · intro h
    have h1 : assignWorkers s jid phones = Except.error EngineError.invalidState := by
      rcases h with hnone | ⟨job, hfind, hterm⟩
      · unfold assignWorkers
        rw [hnone]
      · unfold assignWorkers
        rw [hfind]
        refine if_neg ?_
        rintro (ho | ha)
        · rcases hterm with hc | hc <;> (rw [hc] at ho; exact absurd ho (by decide))
        · rcases hterm with hc | hc <;> (rw [hc] at ha; exact absurd ha (by decide))
    refine ⟨h1, ?_⟩
    show orKeep s ((assignWorkers s jid phones).map Prod.snd) = s
    rw [h1]
    rfl
  · intro target job hfind hterm
    have h2 : setJobStatus s jid target = Except.error EngineError.invalidState := by
      unfold setJobStatus
      by_cases htar : target = "completed" ∨ target = "cancelled"
      · rw [if_pos htar, hfind]
        refine if_neg ?_
        rintro (ho | ha)
        · rcases hterm with hc | hc <;> (rw [hc] at ho; exact absurd ho (by decide))
        · rcases hterm with hc | hc <;> (rw [hc] at ha; exact absurd ha (by decide))
      · rw [if_neg htar]
    refine ⟨h2, ?_⟩
    show orKeep s (setJobStatus s jid target) = s
    rw [h2]
    rfl

/-- Witness for C6 at a concrete input: assigning to the completed job of
the concrete scenario is rejected with InvalidState without effect, and so
is a further status transition of that job. -/
theorem assignWorkers_terminal_rejected_witness :
    (assignWorkers sCompleted 1 [phoneA] = Except.error EngineError.invalidState ∧
      applyOp sCompleted (Op.assign 1 [phoneA]) = sCompleted) ∧
    (setJobStatus sCompleted 1 "cancelled" = Except.error EngineError.invalidState ∧
      applyOp sCompleted (Op.setStatus 1 "cancelled") = sCompleted) :=
  ⟨(assignWorkers_terminal_rejected sCompleted 1 [phoneA]).1
     (Or.inr ⟨jobCompletedRecord, by decide, Or.inl rfl⟩),
   (assignWorkers_terminal_rejected sCompleted 1 [phoneA]).2 "cancelled"
     jobCompletedRecord (by decide) (Or.inl rfl)⟩

/-- C7: updateJob rejects any partial update that tries to write the
engine-owned status or assignedWorkers fields (returning ValidationError
and changing nothing), and otherwise merges the provided profile fields
while keeping the job's status and assigned set exactly as they were. -/
theorem updateJob_rejects_engine_fields (s : EngineState) (jid : Nat) (u : JobUpdate) :
    ((u.status ≠ none ∨ u.assigned_laborers ≠ none) →
      updateJob s jid u = Except.error EngineError.validationError ∧
        applyOp s (Op.updJob jid u) = s) ∧
    (∀ job s', u.status = none → u.assigned_laborers = none →
      findJob s jid = some job → updateJob s jid u = Except.ok s' →
      ∃ job', findJob s' jid = some job' ∧
        job'.status = job.status ∧
        job'.assigned_laborers = job.assigned_laborers ∧
        job'.title = u.title.getD job.title ∧
        job'.description = u.description.getD job.description ∧
        job'.skill_required = u.skill_required.getD job.skill_required ∧
        job'.location = u.location.getD job.location ∧
        job'.date = u.date.getD job.date ∧
        job'.time = u.time.getD job.time ∧
        job'.contact_number = u.contact_number.getD job.contact_number) := by
  constructor
  · intro hforb
    have h1 : updateJob s jid u = Except.error EngineError.validationError := by
      unfold updateJob
      rw [if_pos hforb]
    refine ⟨h1, ?_⟩
    show orKeep s (updateJob s jid u) = s
    rw [h1]
    rfl
  · intro job s' hst hal hfind hok
    unfold updateJob at hok
    rw [if_neg (by simp [hst, hal]), hfind] at hok
    split at hok
    next heq => exact absurd heq (by simp)
    next j2 heq =>
      injection heq with heq2
      subst heq2
      split at hok
      next hv =>
        rw [Except.ok.injEq] at hok
        subst hok
        refine ⟨{ job with
            title := u.title.getD job.title,
            description := u.description.getD job.description,
            skill_required := u.skill_required.getD job.skill_required,
            location := u.location.getD job.location,
            date := u.date.getD job.date,
            time := u.time.getD job.time,
            contact_number := u.contact_number.getD job.contact_number },
          ?_, rfl, rfl, rfl, rfl, rfl, rfl, rfl, rfl, rfl⟩
        refine find?_map_ite hfind ?_
        exact show job.job_id = jid from findJob_job_id hfind
      next hv => simp at hok

/-- Witness for C7 at concrete inputs: writing status through updateJob on
the concrete assigned job is refused without effect, and a title-only
update merges the title while preserving status and assigned set. -/
theorem updateJob_rejects_engine_fields_witness :
    (updateJob sAssigned 1 updateWritingStatus = Except.error EngineError.validationError ∧
      applyOp sAssigned (Op.updJob 1 updateWritingStatus) = sAssigned) ∧
    (∃ job', findJob sRetitled 1 = some job' ∧
      job'.status = jobAssignedRecord.status ∧
      job'.assigned_laborers = jobAssignedRecord.assigned_laborers ∧
      job'.title = updateTitleOnly.title.getD jobAssignedRecord.title ∧
      job'.description = updateTitleOnly.description.getD jobAssignedRecord.description ∧
      job'.skill_required = updateTitleOnly.skill_required.getD jobAssignedRecord.skill_required ∧
      job'.location = updateTitleOnly.location.getD jobAssignedRecord.location ∧
      job'.date = updateTitleOnly.date.getD jobAssignedRecord.date ∧
      job'.time = updateTitleOnly.time.getD jobAssignedRecord.time ∧
      job'.contact_number =
        updateTitleOnly.contact_number.getD jobAssignedRecord.contact_number) :=
  ⟨(updateJob_rejects_engine_fields sAssigned 1 updateWritingStatus).1 (Or.inl (by decide)),
   (updateJob_rejects_engine_fields sAssigned 1 updateTitleOnly).2 jobAssignedRecord sRetitled
     (by decide) (by decide) (by decide) (by decide)⟩

/-- C5: cancelling an assigned job releases every assigned laborer (each
becomes available again), while completing it keeps the assigned set
recorded on the job and leaves every assigned laborer unavailable — the
release happens on cancellation and only on cancellation. -/
theorem setJobStatus_cancel_releases_complete_keeps (s : EngineState) (jid : Nat) (job : Job)
    (hWF : WF s) (hfind : findJob s jid = some job) (hstat : job.status = "assigned") :
    (∃ s1, setJobStatus s jid "cancelled" = Except.ok s1 ∧
      ∀ w ∈ s1.laborers, w.phone ∈ job.assigned_laborers → w.available = true) ∧
    (∃ s2, setJobStatus s jid "completed" = Except.ok s2 ∧
      findJob s2 jid = some { job with status := "completed" } ∧
      s2.laborers = s.laborers ∧
      ∀ w ∈ s2.laborers, w.phone ∈ job.assigned_laborers → w.available = false) := by
  obtain ⟨-, -, -, -, -, -, -, havail, -, -, -, -, -⟩ := hWF
  constructor
  · have hset : setJobStatus s jid "cancelled" = Except.ok
        { s with
          laborers := s.laborers.map (fun w =>
            if w.phone ∈ job.assigned_laborers then { w with available := true } else w),
          jobs := s.jobs.map (fun j =>
            if j.job_id == jid then
              { job with status := "cancelled", assigned_laborers := [] }
            else j) } := by
      unfold setJobStatus
      rw [hfind]
      exact (if_pos (Or.inr hstat)).trans (if_pos rfl)
    refine ⟨_, hset, ?_⟩
    intro w hw hwp
    rcases List.mem_map.mp hw with ⟨w0, _, rfl⟩
    by_cases hmem : w0.phone ∈ job.assigned_laborers
    · rw [if_pos hmem]
    · rw [if_neg hmem] at hwp
      exact absurd hwp hmem
  · have hset : setJobStatus s jid "completed" = Except.ok
        { s with
          jobs := s.jobs.map (fun j =>
            if j.job_id == jid then { job with status := "completed" } else j) } := by
      unfold setJobStatus
      rw [hfind]
      exact (if_pos (Or.inr hstat)).trans (if_neg (by decide))
    refine ⟨_, hset, ?_, rfl, ?_⟩
    · refine find?_map_ite hfind ?_
      exact show job.job_id = jid from findJob_job_id hfind
    · intro w hw hwp
      exact (havail w hw).mpr ⟨job, findJob_mem hfind, hwp⟩

/-- Witness for C5 at the concrete assigned scenario. -/
theorem setJobStatus_cancel_releases_complete_keeps_witness :
    (∃ s1, setJobStatus sAssigned 1 "cancelled" = Except.ok s1 ∧
      ∀ w ∈ s1.laborers, w.phone ∈ jobAssignedRecord.assigned_laborers → w.available = true) ∧
    (∃ s2, setJobStatus sAssigned 1 "completed" = Except.ok s2 ∧
      findJob s2 1 = some { jobAssignedRecord with status := "completed" } ∧
      s2.laborers = sAssigned.laborers ∧
      ∀ w ∈ s2.laborers, w.phone ∈ jobAssignedRecord.assigned_laborers →
        w.available = false) :=
  setJobStatus_cancel_releases_complete_keeps sAssigned 1 jobAssignedRecord
    (by decide) (by decide) rfl

/-- C4: deleting a job releases every phone in its assigned set — each
corresponding laborer becomes available again — and removes the Job
record, which is no longer retrievable afterwards. -/
theorem deleteJob_cascade (s : EngineState) (jid : Nat) (job : Job)
    (hWF : WF s) (hfind : findJob s jid = some job) :
    ∃ s', deleteJob s jid = Except.ok s' ∧
      findJob s' jid = none ∧
      ∀ w ∈ s'.laborers, w.phone ∈ job.assigned_laborers → w.available = true := by
  obtain ⟨-, -, -, -, hnd, hand, -, -, -, -, -, hasg, -⟩ := hWF
  refine ⟨_, deleteJob_eq hfind hnd (hand job (findJob_mem hfind))
    (hasg job (findJob_mem hfind)), ?_, ?_⟩
  · unfold findJob
    rw [List.find?_eq_none]
    intro j hj
    have hne := (List.mem_filter.mp hj).2
    simp only [bne_iff_ne, ne_eq] at hne
    simpa using hne
  · intro w hw hwp
    rcases List.mem_map.mp hw with ⟨w0, _, rfl⟩
    unfold freeIfIn at hwp ⊢
    by_cases hmem : w0.phone ∈ job.assigned_laborers
    · rw [if_pos hmem]
    · rw [if_neg hmem] at hwp
      exact absurd hwp hmem

/-- Witness for C4 at the concrete assigned scenario. -/
theorem deleteJob_cascade_witness :
    ∃ s', deleteJob sAssigned 1 = Except.ok s' ∧
      findJob s' 1 = none ∧
      ∀ w ∈ s'.laborers, w.phone ∈ jobAssignedRecord.assigned_laborers →
        w.available = true :=
  deleteJob_cascade sAssigned 1 jobAssignedRecord (by decide) (by decide)

/-- C1 counterexample: re-requesting a phone already present in the job's
assigned set is skipped silently — the call succeeds with an empty report
— even though that phone references an existing laborer that is currently
unavailable, for which the claim as stated demands an individual
WorkerUnavailable report. -/
theorem assign_repeat_phone_skipped_not_reported :
    assignWorkers sAssigned 1 [phoneA] =
      Except.ok ({ assigned_count := 0, assigned_laborers := [], rejected := [] },
        sAssigned) ∧
    phoneA ∈ dedup [phoneA] ∧
    findLaborerByPhone sAssigned phoneA = some laborerRajuUnavailable ∧
    laborerRajuUnavailable.available = false := by decide

/-- C1 (amended): on a job in state "open" or "assigned" the call always
succeeds; every phone of the de-duplicated request that is not already in
the job's assigned set and references an existing, currently available
laborer is committed (added to the assigned set, the laborer marked
unavailable); every other phone not already in the assigned set is
reported individually with UnknownWorker or WorkerUnavailable; phones
already in the assigned set are skipped silently. -/
theorem assignWorkers_partial_success (s : EngineState) (jid : Nat) (phones : List String)
    (job : Job) (hfind : findJob s jid = some job)
    (hstat : job.status = "open" ∨ job.status = "assigned") :
    ∃ r s', assignWorkers s jid phones = Except.ok (r, s') ∧
      r.assigned_laborers = committedPhones s job phones ∧
      r.assigned_count = (committedPhones s job phones).length ∧
      (∀ p, p ∈ r.assigned_laborers ↔ p ∈ phones ∧ p ∉ job.assigned_laborers ∧
        ∃ w, findLaborerByPhone s p = some w ∧ w.available = true) ∧
      (∀ p, (p, RejectReason.unknownWorker) ∈ r.rejected ↔
        p ∈ phones ∧ p ∉ job.assigned_laborers ∧ findLaborerByPhone s p = none) ∧
      (∀ p, (p, RejectReason.workerUnavailable) ∈ r.rejected ↔
        p ∈ phones ∧ p ∉ job.assigned_laborers ∧
          ∃ w, findLaborerByPhone s p = some w ∧ w.available = false) ∧
      findJob s' jid = some
        { job with
          status := if job.status = "open" ∧ committedPhones s job phones ≠ []
            then "assigned" else job.status,
          assigned_laborers := job.assigned_laborers ++ committedPhones s job phones } ∧
      ∀ w ∈ s'.laborers, w.phone ∈ committedPhones s job phones → w.available = false := by
  refine ⟨{ assigned_count := (committedPhones s job phones).length,
            assigned_laborers := committedPhones s job phones,
            rejected := rejectedPhones s job phones },
          assignCommitState s jid job phones, ?_, rfl, rfl, ?_, ?_, ?_, ?_, ?_⟩
  · unfold assignWorkers
    rw [hfind]
    exact if_pos hstat
  · intro p
    show p ∈ committedPhones s job phones ↔ _
    rw [mem_committedPhones, phoneCommits_iff]
  · intro p
    show (p, RejectReason.unknownWorker) ∈ rejectedPhones s job phones ↔ _
    rw [mem_rejectedPhones, phoneReason_unknown_iff]
  · intro p
    show (p, RejectReason.workerUnavailable) ∈ rejectedPhones s job phones ↔ _
    rw [mem_rejectedPhones, phoneReason_unavailable_iff]
  · refine find?_map_ite hfind ?_
    exact show job.job_id = jid from findJob_job_id hfind
  · intro w hw hwp
    exact mem_map_mark_unavailable hw hwp

/-- Witness for the amended C1 at a concrete input: a mixed request on the
assigned scenario succeeds and reports exactly the committed phones. -/
theorem assignWorkers_partial_success_witness :
    ∃ r s', assignWorkers sAssigned 1 [phoneA, "+911234567890"] = Except.ok (r, s') ∧
      r.assigned_laborers = committedPhones sAssigned jobAssignedRecord
        [phoneA, "+911234567890"] := by
  obtain ⟨r, s', h1, h2, -⟩ := assignWorkers_partial_success sAssigned 1
    [phoneA, "+911234567890"] jobAssignedRecord (by decide) (Or.inr rfl)
  exact ⟨r, s', h1, h2⟩

theorem map_map_eq_of_comp {α β : Type} {l : List α} {f : α → α} {g : α → β}
    (h : ∀ a ∈ l, g (f a) = g a) : (l.map f).map g = l.map g := by
  rw [List.map_map]
  exact List.map_congr_left h

theorem exists_mem_map_ite_iff {jobs : List Job} {jid : Nat} {job nj : Job}
    (hfind : jobs.find? (fun j => j.job_id == jid) = some job)
    (P : Job → Prop) :
    (∃ j ∈ jobs.map (fun j => if j.job_id == jid then nj else j), P j) ↔
      (P nj ∨ ∃ j ∈ jobs, j.job_id ≠ jid ∧ P j) := by
  have hidjob : job.job_id = jid := by simpa using List.find?_some hfind
  constructor
  · rintro ⟨j', hj', hP⟩
    rcases mem_map_ite_job hj' with rfl | ⟨hj, hne⟩
    · exact Or.inl hP
    · exact Or.inr ⟨j', hj, hne, hP⟩
  · rintro (hP | ⟨j, hj, hne, hP⟩)
    · exact ⟨nj, mem_map_ite_new (List.mem_of_find?_eq_some hfind) hidjob, hP⟩
    · exact ⟨j, mem_map_ite_of_ne hj hne, hP⟩

theorem exists_mem_split {jobs : List Job} {jid : Nat} {job : Job}
    (hnd : (jobs.map Job.job_id).Nodup)
    (hfind : jobs.find? (fun j => j.job_id == jid) = some job)
    (P : Job → Prop) :
    (∃ j ∈ jobs, P j) ↔ (P job ∨ ∃ j ∈ jobs, j.job_id ≠ jid ∧ P j) := by
  constructor
  · rintro ⟨j, hj, hP⟩
    by_cases hjj : j.job_id = jid
    · rw [eq_of_mem_job_id hnd hfind hj hjj] at hP
      exact Or.inl hP
    · exact Or.inr ⟨j, hj, hjj, hP⟩
  · rintro (hP | ⟨j, hj, -, hP⟩)
    · exact ⟨job, List.mem_of_find?_eq_some hfind, hP⟩
    · exact ⟨j, hj, hP⟩

theorem eq_of_mem_worker_id {ws : List Laborer} {wid : Nat} {w v : Laborer}
    (hnd : (ws.map Laborer.id).Nodup)
    (hfind : ws.find? (fun v => v.id == wid) = some w)
    (hv : v ∈ ws) (hvid : v.id = wid) : v = w := by
  have hmem := List.mem_of_find?_eq_some hfind
  have hid : w.id = wid := by simpa using List.find?_some hfind
  exact List.inj_on_of_nodup_map hnd hv hmem (by rw [hvid, hid])

theorem mem_map_ite_worker {ws : List Laborer} {wid : Nat} {nw w' : Laborer}
    (h : w' ∈ ws.map (fun v => if v.id == wid then nw else v)) :
    w' = nw ∨ (w' ∈ ws ∧ w'.id ≠ wid) := by
  rcases List.mem_map.mp h with ⟨v, hv, hv'⟩
  by_cases hid : v.id = wid
  · left
    rw [← hv']
    simp [hid]
  · right
    have hb : ¬ (v.id == wid) = true := by simpa using hid
    rw [← hv']
    rw [if_neg hb]
    exact ⟨hv, hid⟩

theorem WF_update_one_job {s : EngineState} {jid : Nat} {job nj : Job}
    (hWF : WF s) (hfind : findJob s jid = some job)
    (hid : nj.job_id = job.job_id)
    (hst : nj.status = job.status)
    (hal : nj.assigned_laborers = job.assigned_laborers) :
    WF { s with jobs := s.jobs.map (fun j => if j.job_id == jid then nj else j) } := by
  obtain ⟨hwid, hwnd, hphnd, hjid, hjnd, hand, hex, havail, hmux, hstatuses, hopen, hasg,
    hcanc⟩ := hWF
  have hidjob : job.job_id = jid := findJob_job_id hfind
  have hmem : job ∈ s.jobs := findJob_mem hfind
  have hidnj : nj.job_id = jid := hid.trans hidjob
  refine ⟨hwid, hwnd, hphnd, ?_, ?_, ?_, ?_, ?_, ?_, ?_, ?_, ?_, ?_⟩
  · intro j' hj'
    rcases mem_map_ite_job hj' with rfl | ⟨hj, -⟩
    · rw [hid]
      exact hjid job hmem
    · exact hjid j' hj
  · rw [map_job_id_ite hidnj]
    exact hjnd
  · intro j' hj'
    rcases mem_map_ite_job hj' with rfl | ⟨hj, -⟩
    · rw [hal]
      exact hand job hmem
    · exact hand j' hj
  · intro j' hj' p hp
    rcases mem_map_ite_job hj' with rfl | ⟨hj, -⟩
    · rw [hal] at hp
      exact hex job hmem p hp
    · exact hex j' hj p hp
  · intro w hw
    refine (havail w hw).trans ?_
    refine (exists_mem_split hjnd hfind _).trans ?_
    refine Iff.trans ?_ (exists_mem_map_ite_iff hfind _).symm
    refine or_congr_left ?_
    rw [hal]
  · intro j1 hj1 j2 hj2 hne p hp1
    rcases mem_map_ite_job hj1 with rfl | ⟨hm1, hne1⟩
    · rcases mem_map_ite_job hj2 with rfl | ⟨hm2, hne2⟩
      · exact absurd rfl hne
      · rw [hal] at hp1
        refine hmux job hmem j2 hm2 ?_ p hp1
        rw [hidjob]
        exact fun hc => hne2 hc.symm
    · rcases mem_map_ite_job hj2 with rfl | ⟨hm2, hne2⟩
      · rw [hal]
        refine hmux j1 hm1 job hmem ?_ p hp1
        rw [hidjob]
        exact hne1
      · exact hmux j1 hm1 j2 hm2 hne p hp1
  · intro j' hj'
    rcases mem_map_ite_job hj' with rfl | ⟨hj, -⟩
    · rw [hst]
      exact hstatuses job hmem
    · exact hstatuses j' hj
  · intro j' hj'
    rcases mem_map_ite_job hj' with rfl | ⟨hj, -⟩
    · rw [hst, hal]
      exact hopen job hmem
    · exact hopen j' hj
  · intro j' hj'
    rcases mem_map_ite_job hj' with rfl | ⟨hj, -⟩
    · rw [hst, hal]
      exact hasg job hmem
    · exact hasg j' hj
  · intro j' hj'
    rcases mem_map_ite_job hj' with rfl | ⟨hj, -⟩
    · rw [hst, hal]
      exact hcanc job hmem
    · exact hcanc j' hj

theorem WF_update_one_worker {s : EngineState} {wid : Nat} {w nw : Laborer}
    (hWF : WF s) (hfind : s.laborers.find? (fun v => v.id == wid) = some w)
    (hid : nw.id = w.id) (hph : nw.phone = w.phone) (hav : nw.available = w.available) :
    WF { s with laborers := s.laborers.map (fun v => if v.id == wid then nw else v) } := by
  obtain ⟨hwid, hwnd, hphnd, hjid, hjnd, hand, hex, havail, hmux, hstatuses, hopen, hasg,
    hcanc⟩ := hWF
  have hmem : w ∈ s.laborers := List.mem_of_find?_eq_some hfind
  have hwidw : w.id = wid := by simpa using List.find?_some hfind
  have hcomp_id : ∀ v ∈ s.laborers,
      (if v.id == wid then nw else v).id = v.id := by
    intro v hv
    by_cases hvw : v.id = wid
    · have hb : (v.id == wid) = true := by simpa using hvw
      rw [if_pos hb, hid, hwidw, hvw]
    · have hb : ¬ (v.id == wid) = true := by simpa using hvw
      rw [if_neg hb]
  have hcomp_ph : ∀ v ∈ s.laborers,
      (if v.id == wid then nw else v).phone = v.phone := by
    intro v hv
    by_cases hvw : v.id = wid
    · have hb : (v.id == wid) = true := by simpa using hvw
      rw [if_pos hb, hph, eq_of_mem_worker_id hwnd hfind hv hvw]
    · have hb : ¬ (v.id == wid) = true := by simpa using hvw
      rw [if_neg hb]
  refine ⟨?_, ?_, ?_, hjid, hjnd, hand, ?_, ?_, hmux, hstatuses, hopen, hasg, hcanc⟩
  · intro w' hw'
    rcases mem_map_ite_worker hw' with rfl | ⟨hw2, -⟩
    · rw [hid]
      exact hwid w hmem
    · exact hwid w' hw2
  · rw [map_map_eq_of_comp hcomp_id]
    exact hwnd
  · rw [map_map_eq_of_comp hcomp_ph]
    exact hphnd
  · intro j hj p hp
    rcases hex j hj p hp with ⟨v, hv, hvp⟩
    refine ⟨(if v.id == wid then nw else v), List.mem_map.mpr ⟨v, hv, rfl⟩, ?_⟩
    rw [hcomp_ph v hv, hvp]
  · intro w' hw'
    rcases mem_map_ite_worker hw' with rfl | ⟨hw2, -⟩
    · rw [hav, hph]
      exact havail w hmem
    · exact havail w' hw2

theorem WF_deleteWorker_filtered {s : EngineState} {wid : Nat} {w : Laborer}
    (hWF : WF s) (hfind : s.laborers.find? (fun v => v.id == wid) = some w)
    (hnojob : ∀ j ∈ s.jobs, w.phone ∉ j.assigned_laborers) :
    WF { s with laborers := s.laborers.filter (fun v => v.id != wid) } := by
  obtain ⟨hwid, hwnd, hphnd, hjid, hjnd, hand, hex, havail, hmux, hstatuses, hopen, hasg,
    hcanc⟩ := hWF
  refine ⟨?_, ?_, ?_, hjid, hjnd, hand, ?_, ?_, hmux, hstatuses, hopen, hasg, hcanc⟩
  · intro v hv
    exact hwid v (List.mem_filter.mp hv).1
  · exact List.Nodup.sublist (List.Sublist.map _ (List.filter_sublist _)) hwnd
  · exact List.Nodup.sublist (List.Sublist.map _ (List.filter_sublist _)) hphnd
  · intro j hj p hp
    rcases hex j hj p hp with ⟨v, hv, hvp⟩
    refine ⟨v, List.mem_filter.mpr ⟨hv, ?_⟩, hvp⟩
    simp only [bne_iff_ne, ne_eq, decide_eq_true_eq]
    intro hvw
    rw [eq_of_mem_worker_id hwnd hfind hv hvw] at hvp
    exact hnojob j hj (hvp ▸ hp)
  · intro v hv
    exact havail v (List.mem_filter.mp hv).1

theorem WF_complete_job {s : EngineState} {jid : Nat} {job : Job}
    (hWF : WF s) (hfind : findJob s jid = some job) :
    WF { s with jobs := s.jobs.map (fun j =>
      if j.job_id == jid then { job with status := "completed" } else j) } := by
  obtain ⟨hwid, hwnd, hphnd, hjid, hjnd, hand, hex, havail, hmux, hstatuses, hopen, hasg,
    hcanc⟩ := hWF
  have hidjob : job.job_id = jid := findJob_job_id hfind
  have hmem : job ∈ s.jobs := findJob_mem hfind
  refine ⟨hwid, hwnd, hphnd, ?_, ?_, ?_, ?_, ?_, ?_, ?_, ?_, ?_, ?_⟩
  · intro j' hj'
    rcases mem_map_ite_job hj' with rfl | ⟨hj, -⟩
    · exact hjid job hmem
    · exact hjid j' hj
  · have hidnj : ({ job with status := "completed" } : Job).job_id = jid := hidjob
    rw [map_job_id_ite hidnj]
    exact hjnd
  · intro j' hj'
    rcases mem_map_ite_job hj' with rfl | ⟨hj, -⟩
    · exact hand job hmem
    · exact hand j' hj
  · intro j' hj' p hp
    rcases mem_map_ite_job hj' with rfl | ⟨hj, -⟩
    · exact hex job hmem p hp
    · exact hex j' hj p hp
  · intro w hw
    refine (havail w hw).trans ?_
    refine (exists_mem_split hjnd hfind _).trans ?_
    refine Iff.trans ?_ (exists_mem_map_ite_iff hfind _).symm
    exact or_congr_left Iff.rfl
  · intro j1 hj1 j2 hj2 hne p hp1
    rcases mem_map_ite_job hj1 with rfl | ⟨hm1, hne1⟩
    · rcases mem_map_ite_job hj2 with rfl | ⟨hm2, hne2⟩
      · exact absurd rfl hne
      · refine hmux job hmem j2 hm2 ?_ p hp1
        rw [hidjob]
        exact fun hc => hne2 hc.symm
    · rcases mem_map_ite_job hj2 with rfl | ⟨hm2, hne2⟩
      · refine hmux j1 hm1 job hmem ?_ p hp1
        rw [hidjob]
        exact hne1
      · exact hmux j1 hm1 j2 hm2 hne p hp1
  · intro j' hj'
    rcases mem_map_ite_job hj' with rfl | ⟨hj, -⟩
    · exact Or.inr (Or.inr (Or.inl rfl))
    · exact hstatuses j' hj
  · intro j' hj'
    rcases mem_map_ite_job hj' with rfl | ⟨hj, -⟩
    · intro habs
      simp at habs
    · exact hopen j' hj
  · intro j' hj'
    rcases mem_map_ite_job hj' with rfl | ⟨hj, -⟩
    · intro habs
      simp at habs
    · exact hasg j' hj
  · intro j' hj'
    rcases mem_map_ite_job hj' with rfl | ⟨hj, -⟩
    · intro habs
      simp at habs
    · exact hcanc j' hj

theorem WF_cancel_job {s : EngineState} {jid : Nat} {job : Job}
    (hWF : WF s) (hfind : findJob s jid = some job) :
    WF { s with
      laborers := s.laborers.map (fun w =>
        if w.phone ∈ job.assigned_laborers then { w with available := true } else w),
      jobs := s.jobs.map (fun j =>
        if j.job_id == jid then { job with status := "cancelled", assigned_laborers := [] }
        else j) } := by
  obtain ⟨hwid, hwnd, hphnd, hjid, hjnd, hand, hex, havail, hmux, hstatuses, hopen, hasg,
    hcanc⟩ := hWF
  have hidjob : job.job_id = jid := findJob_job_id hfind
  have hmem : job ∈ s.jobs := findJob_mem hfind
  have hcomp_id : ∀ w ∈ s.laborers,
      (if w.phone ∈ job.assigned_laborers then { w with available := true } else w).id =
        w.id := by
    intro w _
    by_cases hm : w.phone ∈ job.assigned_laborers <;> simp [hm]
  have hcomp_ph : ∀ w ∈ s.laborers,
      (if w.phone ∈ job.assigned_laborers then { w with available := true } else w).phone =
        w.phone := by
    intro w _
    by_cases hm : w.phone ∈ job.assigned_laborers <;> simp [hm]
  refine ⟨?_, ?_, ?_, ?_, ?_, ?_, ?_, ?_, ?_, ?_, ?_, ?_, ?_⟩
  · intro w' hw'
    rcases List.mem_map.mp hw' with ⟨w0, hw0, rfl⟩
    rw [hcomp_id w0 hw0]
    exact hwid w0 hw0
  · rw [map_map_eq_of_comp hcomp_id]
    exact hwnd
  · rw [map_map_eq_of_comp hcomp_ph]
    exact hphnd
  · intro j' hj'
    rcases mem_map_ite_job hj' with rfl | ⟨hj, -⟩
    · exact hjid job hmem
    · exact hjid j' hj
  · have hidnj : ({ job with
        status := "cancelled",
        assigned_laborers := ([] : List String) } : Job).job_id = jid := hidjob
    rw [map_job_id_ite hidnj]
    exact hjnd
  · intro j' hj'
    rcases mem_map_ite_job hj' with rfl | ⟨hj, -⟩
    · simp
    · exact hand j' hj
  · intro j' hj' p hp
    rcases mem_map_ite_job hj' with rfl | ⟨hj, -⟩
    · simp at hp
    · rcases hex j' hj p hp with ⟨w1, hw1, hwp⟩
      refine ⟨_, List.mem_map.mpr ⟨w1, hw1, rfl⟩, ?_⟩
      rw [hcomp_ph w1 hw1, hwp]
  · intro w' hw'
    rcases List.mem_map.mp hw' with ⟨w0, hw0, rfl⟩
    by_cases hm : w0.phone ∈ job.assigned_laborers
    · rw [if_pos hm]
      constructor
      · intro habs
        simp at habs
      · rintro ⟨j', hj', hp⟩
        rcases mem_map_ite_job hj' with rfl | ⟨hj, hnej⟩
        · simp at hp
        · refine absurd hp (hmux job hmem j' hj ?_ w0.phone hm)
          rw [hidjob]
          exact fun hc => hnej hc.symm
    · rw [if_neg hm]
      refine (havail w0 hw0).trans ?_
      refine (exists_mem_split hjnd hfind _).trans ?_
      refine Iff.trans ?_ (exists_mem_map_ite_iff hfind _).symm
      simp [hm]
  · intro j1 hj1 j2 hj2 hne p hp1
    rcases mem_map_ite_job hj1 with rfl | ⟨hm1, hne1⟩
    · rcases mem_map_ite_job hj2 with rfl | ⟨hm2, hne2⟩
      · exact absurd rfl hne
      · simp at hp1
    · rcases mem_map_ite_job hj2 with rfl | ⟨hm2, hne2⟩
      · simp
      · exact hmux j1 hm1 j2 hm2 hne p hp1
  · intro j' hj'
    rcases mem_map_ite_job hj' with rfl | ⟨hj, -⟩
    · exact Or.inr (Or.inr (Or.inr rfl))
    · exact hstatuses j' hj
  · intro j' hj'
    rcases mem_map_ite_job hj' with rfl | ⟨hj, -⟩
    · intro habs
      simp at habs
    · exact hopen j' hj
  · intro j' hj'
    rcases mem_map_ite_job hj' with rfl | ⟨hj, -⟩
    · intro habs
      simp at habs
    · exact hasg j' hj
  · intro j' hj'
    rcases mem_map_ite_job hj' with rfl | ⟨hj, -⟩
    · intro _
      rfl
    · exact hcanc j' hj

theorem WF_assign_commit {s : EngineState} {jid : Nat} {job : Job} {phones : List String}
    (hWF : WF s) (hfind : findJob s jid = some job)
    (hstat : job.status = "open" ∨ job.status = "assigned") :
    WF (assignCommitState s jid job phones) := by
  obtain ⟨hwid, hwnd, hphnd, hjid, hjnd, hand, hex, havail, hmux, hstatuses, hopen, hasg,
    hcanc⟩ := hWF
  have hidjob : job.job_id = jid := findJob_job_id hfind
  have hmem : job ∈ s.jobs := findJob_mem hfind
  have hCavail : ∀ p ∈ committedPhones s job phones,
      ∃ w ∈ s.laborers, w.phone = p ∧ w.available = true := by
    intro p hp
    rcases phoneCommits_iff.mp (mem_committedPhones.mp hp).2.2 with ⟨w, hfw, hav⟩
    exact ⟨w, findLaborerByPhone_mem hfw, findLaborerByPhone_phone hfw, hav⟩
  have hCnot : ∀ p ∈ committedPhones s job phones, ∀ j ∈ s.jobs,
      p ∉ j.assigned_laborers := by
    intro p hp j hj hmemp
    rcases hCavail p hp with ⟨w, hw, hwp, hav⟩
    have h2 := (havail w hw).mpr ⟨j, hj, by rw [hwp]; exact hmemp⟩
    rw [hav] at h2
    exact absurd h2 (by decide)
  have hCA : ∀ p ∈ committedPhones s job phones, p ∉ job.assigned_laborers :=
    fun p hp => (mem_committedPhones.mp hp).2.1
  show WF { s with
    laborers := s.laborers.map (fun w =>
      if w.phone ∈ committedPhones s job phones then { w with available := false } else w),
    jobs := s.jobs.map (fun j =>
      if j.job_id == jid then
        { job with
          status := if job.status = "open" ∧ committedPhones s job phones ≠ []
            then "assigned" else job.status,
          assigned_laborers := job.assigned_laborers ++ committedPhones s job phones }
      else j) }
  have hnst : ({ job with
      status := if job.status = "open" ∧ committedPhones s job phones ≠ []
        then "assigned" else job.status,
      assigned_laborers := job.assigned_laborers ++ committedPhones s job phones } :
        Job).status =
      (if job.status = "open" ∧ committedPhones s job phones ≠ []
        then "assigned" else job.status) := rfl
  have hnal : ({ job with
      status := if job.status = "open" ∧ committedPhones s job phones ≠ []
        then "assigned" else job.status,
      assigned_laborers := job.assigned_laborers ++ committedPhones s job phones } :
        Job).assigned_laborers =
      job.assigned_laborers ++ committedPhones s job phones := rfl
  have hcomp_id : ∀ w ∈ s.laborers,
      (if w.phone ∈ committedPhones s job phones then { w with available := false }
        else w).id = w.id := by
    intro w _
    by_cases hm : w.phone ∈ committedPhones s job phones <;> simp [hm]
  have hcomp_ph : ∀ w ∈ s.laborers,
      (if w.phone ∈ committedPhones s job phones then { w with available := false }
        else w).phone = w.phone := by
    intro w _
    by_cases hm : w.phone ∈ committedPhones s job phones <;> simp [hm]
  refine ⟨?_, ?_, ?_, ?_, ?_, ?_, ?_, ?_, ?_, ?_, ?_, ?_, ?_⟩
  · intro w' hw'
    rcases List.mem_map.mp hw' with ⟨w0, hw0, rfl⟩
    rw [hcomp_id w0 hw0]
    exact hwid w0 hw0
  · rw [map_map_eq_of_comp hcomp_id]
    exact hwnd
  · rw [map_map_eq_of_comp hcomp_ph]
    exact hphnd
  · intro j' hj'
    rcases mem_map_ite_job hj' with rfl | ⟨hj, -⟩
    · exact hjid job hmem
    · exact hjid j' hj
  · have hidnj : ({ job with
        status := if job.status = "open" ∧ committedPhones s job phones ≠ []
          then "assigned" else job.status,
        assigned_laborers := job.assigned_laborers ++ committedPhones s job phones } :
          Job).job_id = jid := hidjob
    rw [map_job_id_ite hidnj]
    exact hjnd
  · intro j' hj'
    rcases mem_map_ite_job hj' with rfl | ⟨hj, -⟩
    · rw [hnal]
      refine List.Nodup.append (hand job hmem) (nodup_committedPhones s job phones) ?_
      rw [List.disjoint_left]
      intro a ha hc
      exact hCA a hc ha
    · exact hand j' hj
  · intro j' hj' p hp
    rcases mem_map_ite_job hj' with rfl | ⟨hj, -⟩
    · rw [hnal] at hp
      rcases List.mem_append.mp hp with hpA | hpC
      · rcases hex job hmem p hpA with ⟨w1, hw1, hwp⟩
        refine ⟨_, List.mem_map.mpr ⟨w1, hw1, rfl⟩, ?_⟩
        rw [hcomp_ph w1 hw1, hwp]
      · rcases hCavail p hpC with ⟨w1, hw1, hwp, -⟩
        refine ⟨_, List.mem_map.mpr ⟨w1, hw1, rfl⟩, ?_⟩
        rw [hcomp_ph w1 hw1, hwp]
    · rcases hex j' hj p hp with ⟨w1, hw1, hwp⟩
      refine ⟨_, List.mem_map.mpr ⟨w1, hw1, rfl⟩, ?_⟩
      rw [hcomp_ph w1 hw1, hwp]
  · intro w' hw'
    rcases List.mem_map.mp hw' with ⟨w0, hw0, rfl⟩
    by_cases hm : w0.phone ∈ committedPhones s job phones
    · rw [if_pos hm]
      constructor
      · intro _
        refine ⟨_, mem_map_ite_new hmem hidjob, ?_⟩
        show w0.phone ∈ job.assigned_laborers ++ committedPhones s job phones
        exact List.mem_append.mpr (Or.inr hm)
      · intro _
        rfl
    · rw [if_neg hm]
      refine (havail w0 hw0).trans ?_
      refine (exists_mem_split hjnd hfind _).trans ?_
      refine Iff.trans ?_ (exists_mem_map_ite_iff hfind _).symm
      rw [hnal]
      simp [List.mem_append, hm]
  · intro j1 hj1 j2 hj2 hne p hp1
    rcases mem_map_ite_job hj1 with rfl | ⟨hm1, hne1⟩
    · rcases mem_map_ite_job hj2 with rfl | ⟨hm2, hne2⟩
      · exact absurd rfl hne
      · rw [hnal] at hp1
        rcases List.mem_append.mp hp1 with hpA | hpC
        · refine hmux job hmem j2 hm2 ?_ p hpA
          rw [hidjob]
          exact fun hc => hne2 hc.symm
        · exact hCnot p hpC j2 hm2
    · rcases mem_map_ite_job hj2 with rfl | ⟨hm2, hne2⟩
      · rw [hnal]
        intro hc
        rcases List.mem_append.mp hc with hcA | hcC
        · refine hmux j1 hm1 job hmem ?_ p hp1 hcA
          rw [hidjob]
          exact hne1
        · exact hCnot p hcC j1 hm1 hp1
      · exact hmux j1 hm1 j2 hm2 hne p hp1
  · intro j' hj'
    rcases mem_map_ite_job hj' with rfl | ⟨hj, -⟩
    · rw [hnst]
      by_cases hcnd : job.status = "open" ∧ committedPhones s job phones ≠ []
      · rw [if_pos hcnd]
        exact Or.inr (Or.inl rfl)
      · rw [if_neg hcnd]
        exact hstatuses job hmem
    · exact hstatuses j' hj
  · intro j' hj'
    rcases mem_map_ite_job hj' with rfl | ⟨hj, -⟩
    · rw [hnst, hnal]
      by_cases hcnd : job.status = "open" ∧ committedPhones s job phones ≠ []
      · rw [if_pos hcnd]
        intro habs
        exact absurd habs (by decide)
      · rw [if_neg hcnd]
        intro habs
        have hc : committedPhones s job phones = [] := by
          by_contra hcc
          exact hcnd ⟨habs, hcc⟩
        rw [hopen job hmem habs, hc]
        rfl
    · exact hopen j' hj
  · intro j' hj'
    rcases mem_map_ite_job hj' with rfl | ⟨hj, -⟩
    · rw [hnst, hnal]
      by_cases hcnd : job.status = "open" ∧ committedPhones s job phones ≠ []
      · rw [if_pos hcnd]
        intro _ hnil
        rw [List.append_eq_nil] at hnil
        exact hcnd.2 hnil.2
      · rw [if_neg hcnd]
        intro habs hnil
        rw [List.append_eq_nil] at hnil
        exact hasg job hmem habs hnil.1
    · exact hasg j' hj
  · intro j' hj'
    rcases mem_map_ite_job hj' with rfl | ⟨hj, -⟩
    · rw [hnst, hnal]
      by_cases hcnd : job.status = "open" ∧ committedPhones s job phones ≠ []
      · rw [if_pos hcnd]
        intro habs
        exact absurd habs (by decide)
      · rw [if_neg hcnd]
        intro habs
        rcases hstat with h | h <;> (rw [habs] at h; exact absurd h (by decide))
    · exact hcanc j' hj

theorem WF_delete_job {s : EngineState} {jid : Nat} {job : Job}
    (hWF : WF s) (hfind : findJob s jid = some job) :
    WF { s with
      laborers := s.laborers.map (freeIfIn job.assigned_laborers),
      jobs := s.jobs.filter (fun j => j.job_id != jid) } := by
  obtain ⟨hwid, hwnd, hphnd, hjid, hjnd, hand, hex, havail, hmux, hstatuses, hopen, hasg,
    hcanc⟩ := hWF
  have hidjob : job.job_id = jid := findJob_job_id hfind
  have hmem : job ∈ s.jobs := findJob_mem hfind
  have hcomp_id : ∀ w ∈ s.laborers, (freeIfIn job.assigned_laborers w).id = w.id := by
    intro w _
    unfold freeIfIn
    by_cases hm : w.phone ∈ job.assigned_laborers <;> simp [hm]
  have hcomp_ph : ∀ w ∈ s.laborers, (freeIfIn job.assigned_laborers w).phone = w.phone := by
    intro w _
    unfold freeIfIn
    by_cases hm : w.phone ∈ job.assigned_laborers <;> simp [hm]
  have hjf : ∀ j : Job, j ∈ s.jobs.filter (fun j => j.job_id != jid) ↔
      (j ∈ s.jobs ∧ j.job_id ≠ jid) := by
    intro j
    rw [List.mem_filter]
    simp [bne_iff_ne]
  refine ⟨?_, ?_, ?_, ?_, ?_, ?_, ?_, ?_, ?_, ?_, ?_, ?_, ?_⟩
  · intro w' hw'
    rcases List.mem_map.mp hw' with ⟨w0, hw0, rfl⟩
    rw [hcomp_id w0 hw0]
    exact hwid w0 hw0
  · rw [map_map_eq_of_comp hcomp_id]
    exact hwnd
  · rw [map_map_eq_of_comp hcomp_ph]
    exact hphnd
  · intro j hj
    exact hjid j ((hjf j).mp hj).1
  · exact List.Nodup.sublist (List.Sublist.map _ (List.filter_sublist _)) hjnd
  · intro j hj
    exact hand j ((hjf j).mp hj).1
  · intro j hj p hp
    rcases hex j ((hjf j).mp hj).1 p hp with ⟨w1, hw1, hwp⟩
    refine ⟨_, List.mem_map.mpr ⟨w1, hw1, rfl⟩, ?_⟩
    rw [hcomp_ph w1 hw1, hwp]
  · intro w' hw'
    rcases List.mem_map.mp hw' with ⟨w0, hw0, rfl⟩
    unfold freeIfIn
    by_cases hm : w0.phone ∈ job.assigned_laborers
    · rw [if_pos hm]
      constructor
      · intro habs
        simp at habs
      · rintro ⟨j', hj', hp⟩
        rcases (hjf j').mp hj' with ⟨hjmem, hjne⟩
        refine absurd hp (hmux job hmem j' hjmem ?_ w0.phone hm)
        rw [hidjob]
        exact fun hc => hjne hc.symm
    · rw [if_neg hm]
      refine (havail w0 hw0).trans ?_
      constructor
      · rintro ⟨j, hj, hp⟩
        by_cases hjj : j.job_id = jid
        · rw [eq_of_mem_job_id hjnd hfind hj hjj] at hp
          exact absurd hp hm
        · exact ⟨j, (hjf j).mpr ⟨hj, hjj⟩, hp⟩
      · rintro ⟨j, hj, hp⟩
        exact ⟨j, ((hjf j).mp hj).1, hp⟩
  · intro j1 hj1 j2 hj2 hne p hp1
    exact hmux j1 ((hjf j1).mp hj1).1 j2 ((hjf j2).mp hj2).1 hne p hp1
  · intro j hj
    exact hstatuses j ((hjf j).mp hj).1
  · intro j hj
    exact hopen j ((hjf j).mp hj).1
  · intro j hj
    exact hasg j ((hjf j).mp hj).1
  · intro j hj
    exact hcanc j ((hjf j).mp hj).1

theorem WF_registerWorker {s : EngineState} {n sk loc lang ph : String} {s' : EngineState}
    (hWF : WF s) (h : registerWorker s n sk loc lang ph = Except.ok s') : WF s' := by
  obtain ⟨hwid, hwnd, hphnd, hjid, hjnd, hand, hex, havail, hmux, hstat, hopen, hasg, hcanc⟩ :=
    hWF
  unfold registerWorker at h
  split at h
  case isTrue hval =>
    split at h
    case isTrue hdup => simp at h
    case isFalse hdup =>
      rw [Except.ok.injEq] at h
      subst h
      have hfresh : ∀ w ∈ s.laborers, w.phone ≠ ph := by
        intro w hw heq
        exact hdup (List.any_eq_true.mpr ⟨w, hw, by simpa using heq⟩)
      refine ⟨?_, ?_, ?_, ?_, hjnd, hand, ?_, ?_, hmux, hstat, hopen, hasg, hcanc⟩
      · intro w hw
        rcases List.mem_append.mp hw with hw | hw
        · exact Nat.lt_trans (hwid w hw) (Nat.lt_succ_self _)
        · rcases List.mem_singleton.mp hw with rfl
          exact Nat.lt_succ_self _
      · rw [List.map_append]
        refine List.Nodup.append hwnd (by simp) ?_
        rw [List.disjoint_left]
        intro a ha hb
        rcases List.mem_map.mp ha with ⟨w, hw, rfl⟩
        have hb' := List.mem_singleton.mp hb
        simp at hb'
        have := hwid w hw
        omega
      · rw [List.map_append]
        refine List.Nodup.append hphnd (by simp) ?_
        rw [List.disjoint_left]
        intro a ha hb
        rcases List.mem_map.mp ha with ⟨w, hw, rfl⟩
        exact hfresh w hw (List.mem_singleton.mp hb)
      · intro j hj
        exact Nat.lt_trans (hjid j hj) (Nat.lt_succ_self _)
      · intro j hj p hp
        rcases hex j hj p hp with ⟨w, hw, hwp⟩
        exact ⟨w, List.mem_append.mpr (Or.inl hw), hwp⟩
      · intro w hw
        rcases List.mem_append.mp hw with hw | hw
        · exact havail w hw
        · rcases List.mem_singleton.mp hw with rfl
          constructor
          · intro hfalse
            exact absurd hfalse (by simp)
          · rintro ⟨j, hj, hp⟩
            rcases hex j hj _ hp with ⟨w, hw, hwp⟩
            exact absurd hwp (hfresh w hw)
  case isFalse hval => simp at h

theorem WF_createJob {s : EngineState}
    {t d sk loc da ti c : String} {s' : EngineState}
    (hWF : WF s) (h : createJob s t d sk loc da ti c = Except.ok s') : WF s' := by
  obtain ⟨hwid, hwnd, hphnd, hjid, hjnd, hand, hex, havail, hmux, hstat, hopen, hasg, hcanc⟩ :=
    hWF
  unfold createJob at h
  split at h
  case isTrue hval =>
    rw [Except.ok.injEq] at h
    subst h
    refine ⟨?_, hwnd, hphnd, ?_, ?_, ?_, ?_, ?_, ?_, ?_, ?_, ?_, ?_⟩
    · intro w hw
      exact Nat.lt_trans (hwid w hw) (Nat.lt_succ_self _)
    · intro j hj
      rcases List.mem_append.mp hj with hj | hj
      · exact Nat.lt_trans (hjid j hj) (Nat.lt_succ_self _)
      · rcases List.mem_singleton.mp hj with rfl
        exact Nat.lt_succ_self _
    · rw [List.map_append]
      refine List.Nodup.append hjnd (by simp) ?_
      rw [List.disjoint_left]
      intro a ha hb
      rcases List.mem_map.mp ha with ⟨j, hj, rfl⟩
      have hb' := List.mem_singleton.mp hb
      simp at hb'
      have := hjid j hj
      omega
    · intro j hj
      rcases List.mem_append.mp hj with hj | hj
      · exact hand j hj
      · rcases List.mem_singleton.mp hj with rfl
        simp
    · intro j hj p hp
      rcases List.mem_append.mp hj with hj | hj
      · exact hex j hj p hp
      · rcases List.mem_singleton.mp hj with rfl
        simp at hp
    · intro w hw
      rw [havail w hw]
      constructor
      · rintro ⟨j, hj, hp⟩
        exact ⟨j, List.mem_append.mpr (Or.inl hj), hp⟩
      · rintro ⟨j, hj, hp⟩
        rcases List.mem_append.mp hj with hj | hj
        · exact ⟨j, hj, hp⟩
        · rcases List.mem_singleton.mp hj with rfl
          simp at hp
    · intro j1 hj1 j2 hj2 hne p hp1
      rcases List.mem_append.mp hj1 with hj1 | hj1
      · rcases List.mem_append.mp hj2 with hj2 | hj2
        · exact hmux j1 hj1 j2 hj2 hne p hp1
        · rcases List.mem_singleton.mp hj2 with rfl
          simp
      · rcases List.mem_singleton.mp hj1 with rfl
        simp at hp1
    · intro j hj
      rcases List.mem_append.mp hj with hj | hj
      · exact hstat j hj
      · rcases List.mem_singleton.mp hj with rfl
        exact Or.inl rfl
    · intro j hj
      rcases List.mem_append.mp hj with hj | hj
      · exact hopen j hj
      · rcases List.mem_singleton.mp hj with rfl
        intro
        rfl
    · intro j hj
      rcases List.mem_append.mp hj with hj | hj
      · exact hasg j hj
      · rcases List.mem_singleton.mp hj with rfl
        intro hst
        simp at hst
    · intro j hj
      rcases List.mem_append.mp hj with hj | hj
      · exact hcanc j hj
      · rcases List.mem_singleton.mp hj with rfl
        intro hst
        simp at hst
  case isFalse hval => simp at h

theorem WF_updateJob {s : EngineState} {jid : Nat} {u : JobUpdate} {s' : EngineState}
    (hWF : WF s) (h : updateJob s jid u = Except.ok s') : WF s' := by
  unfold updateJob at h
  split at h
  case isTrue => simp at h
  case isFalse hforb =>
    split at h
    next heq => simp at h
    next job heq =>
      split at h
      case isTrue hv =>
        rw [Except.ok.injEq] at h
        subst h
        exact WF_update_one_job hWF heq rfl rfl rfl
      case isFalse hv => simp at h

theorem WF_updateWorker {s : EngineState} {wid : Nat} {u : LaborerUpdate} {s' : EngineState}
    (hWF : WF s) (h : updateWorker s wid u = Except.ok s') : WF s' := by
  unfold updateWorker at h
  split at h
  case isTrue => simp at h
  case isFalse hforb =>
    split at h
    next heq => simp at h
    next w heq =>
      split at h
      case isTrue hv =>
        rw [Except.ok.injEq] at h
        subst h
        exact WF_update_one_worker hWF heq rfl rfl rfl
      case isFalse hv => simp at h

theorem WF_setJobStatus {s : EngineState} {jid : Nat} {target : String} {s' : EngineState}
    (hWF : WF s) (h : setJobStatus s jid target = Except.ok s') : WF s' := by
  unfold setJobStatus at h
  split at h
  case isFalse => simp at h
  case isTrue htar =>
    split at h
    next heq => simp at h
    next job heq =>
      split at h
      case isTrue hstat =>
        split at h
        case isTrue hcan =>
          rw [Except.ok.injEq] at h
          subst h
          exact WF_cancel_job hWF heq
        case isFalse hcan =>
          rw [Except.ok.injEq] at h
          subst h
          exact WF_complete_job hWF heq
      case isFalse hstat => simp at h

theorem WF_assignWorkers {s : EngineState} {jid : Nat} {phones : List String}
    {r : AssignmentResult} {s' : EngineState}
    (hWF : WF s) (h : assignWorkers s jid phones = Except.ok (r, s')) : WF s' := by
  unfold assignWorkers at h
  split at h
  next heq => simp at h
  next job heq =>
    split at h
    case isTrue hstat =>
      rw [Except.ok.injEq, Prod.mk.injEq] at h
      obtain ⟨-, h2⟩ := h
      subst h2
      exact WF_assign_commit hWF heq hstat
    case isFalse => simp at h

theorem WF_deleteJob {s : EngineState} {jid : Nat} {s' : EngineState}
    (hWF : WF s) (h : deleteJob s jid = Except.ok s') : WF s' := by
  cases hfind : findJob s jid with
  | none =>
    unfold deleteJob at h
    rw [hfind] at h
    simp at h
  | some job =>
    have hWF' := hWF
    obtain ⟨-, -, -, -, hjnd, hand, -, -, -, -, -, hasg, -⟩ := hWF'
    rw [deleteJob_eq hfind hjnd (hand job (findJob_mem hfind))
      (hasg job (findJob_mem hfind))] at h
    rw [Except.ok.injEq] at h
    subst h
    exact WF_delete_job hWF hfind

theorem WF_deleteWorker {s : EngineState} {wid : Nat} {s' : EngineState}
    (hWF : WF s) (h : deleteWorker s wid = Except.ok s') : WF s' := by
  unfold deleteWorker at h
  split at h
  next heq => simp at h
  next w heq =>
    split at h
    case isTrue => simp at h
    case isFalse hnojob =>
      rw [Except.ok.injEq] at h
      subst h
      refine WF_deleteWorker_filtered hWF heq ?_
      intro j hj hp
      refine hnojob ?_
      exact List.any_eq_true.mpr ⟨j, hj, by simpa using hp⟩

theorem WF_applyOp {s : EngineState} (op : Op) (hWF : WF s) : WF (applyOp s op) := by
  cases op with
  | reg n sk loc lang ph =>
    show WF (orKeep s (registerWorker s n sk loc lang ph))
    cases h : registerWorker s n sk loc lang ph with
    | ok s' => exact WF_registerWorker hWF h
    | error e => exact hWF
  | create t d sk loc da ti c =>
    show WF (orKeep s (createJob s t d sk loc da ti c))
    cases h : createJob s t d sk loc da ti c with
    | ok s' => exact WF_createJob hWF h
    | error e => exact hWF
  | assign jid ps =>
    show WF (orKeep s ((assignWorkers s jid ps).map Prod.snd))
    cases h : assignWorkers s jid ps with
    | ok pair =>
      cases pair with
      | mk r s' => exact WF_assignWorkers hWF h
    | error e => exact hWF
  | updJob jid u =>
    show WF (orKeep s (updateJob s jid u))
    cases h : updateJob s jid u with
    | ok s' => exact WF_updateJob hWF h
    | error e => exact hWF
  | updWorker wid u =>
    show WF (orKeep s (updateWorker s wid u))
    cases h : updateWorker s wid u with
    | ok s' => exact WF_updateWorker hWF h
    | error e => exact hWF
  | setStatus jid t =>
    show WF (orKeep s (setJobStatus s jid t))
    cases h : setJobStatus s jid t with
    | ok s' => exact WF_setJobStatus hWF h
    | error e => exact hWF
  | delJob jid =>
    show WF (orKeep s (deleteJob s jid))
    cases h : deleteJob s jid with
    | ok s' => exact WF_deleteJob hWF h
    | error e => exact hWF
  | delWorker wid =>
    show WF (orKeep s (deleteWorker s wid))
    cases h : deleteWorker s wid with
    | ok s' => exact WF_deleteWorker hWF h
    | error e => exact hWF

theorem WF_initState : WF initState := by decide

theorem WF_foldl {s : EngineState} (hWF : WF s) (ops : List Op) :
    WF (ops.foldl applyOp s) := by
  induction ops generalizing s with
  | nil => exact hWF
  | cons op ops ih => exact ih (WF_applyOp op hWF)

theorem WF_run (ops : List Op) : WF (run ops) := WF_foldl WF_initState ops

/-- C2 counterexample: after completing the assigned job of the concrete
scenario, the reachable store holds a job whose status is not "assigned"
while its assigned set is non-empty, refuting the claimed biconditional
between status "assigned" and non-emptiness. -/
theorem status_membership_coupling_cex :
    jobCompletedRecord ∈ (run traceCompleted).jobs ∧
    jobCompletedRecord.status ≠ "assigned" ∧
    jobCompletedRecord.assigned_laborers ≠ [] ∧
    ¬ (jobCompletedRecord.status = "assigned" ↔
        jobCompletedRecord.assigned_laborers ≠ []) := by decide

/-- C2 (amended): after every sequence of engine operations, a job in
status "assigned" has a non-empty assigned set and a job in status "open"
has an empty one (the biconditional holds for every non-terminal job; a
completed job keeps its assigned set recorded), and an assignment that
commits at least one phone to an "open" job moves its status to
"assigned". -/
theorem status_membership_coupling :
    (∀ ops : List Op, ∀ j ∈ (run ops).jobs,
      (j.status = "assigned" → j.assigned_laborers ≠ []) ∧
      (j.status = "open" → j.assigned_laborers = [])) ∧
    (∀ (s : EngineState) (jid : Nat) (phones : List String) (job : Job)
        (r : AssignmentResult) (s' : EngineState),
      findJob s jid = some job → job.status = "open" →
      assignWorkers s jid phones = Except.ok (r, s') → r.assigned_laborers ≠ [] →
      ∃ j', findJob s' jid = some j' ∧ j'.status = "assigned") := by
  constructor
  · intro ops j hj
    obtain ⟨-, -, -, -, -, -, -, -, -, -, hopen, hasg, -⟩ := WF_run ops
    exact ⟨hasg j hj, hopen j hj⟩
  · intro s jid phones job r s' hfind hopen hok hne
    unfold assignWorkers at hok
    rw [hfind] at hok
    split at hok
    next heq => exact absurd heq (by simp)
    next job2 heq =>
    injection heq with heq2
    subst heq2
    split at hok
    case isTrue hstat =>
      rw [Except.ok.injEq, Prod.mk.injEq] at hok
      obtain ⟨h1, h2⟩ := hok
      subst h2
      rw [← h1] at hne
      refine ⟨{ job with
          status := if job.status = "open" ∧ committedPhones s job phones ≠ []
            then "assigned" else job.status,
          assigned_laborers := job.assigned_laborers ++ committedPhones s job phones },
        ?_, ?_⟩
      · refine find?_map_ite hfind ?_
        exact show job.job_id = jid from findJob_job_id hfind
      · show (if job.status = "open" ∧ committedPhones s job phones ≠ []
          then "assigned" else job.status) = "assigned"
        exact if_pos ⟨hopen, hne⟩
    case isFalse hstat =>
      exact absurd (Or.inl hopen) hstat

/-- Witness for the amended C2: the invariant holds at the concrete
assigned scenario, and the concrete assignment of the mason to the open
job moved its status to "assigned". -/
theorem status_membership_coupling_witness :
    ((jobAssignedRecord.status = "assigned" → jobAssignedRecord.assigned_laborers ≠ []) ∧
      (jobAssignedRecord.status = "open" → jobAssignedRecord.assigned_laborers = [])) ∧
    (∃ j', findJob sAssigned 1 = some j' ∧ j'.status = "assigned") :=
  ⟨status_membership_coupling.1 traceAssigned jobAssignedRecord (by decide),
   status_membership_coupling.2 sOpen 1 [phoneA] jobOpenRecord
     { assigned_count := 1, assigned_laborers := [phoneA], rejected := [] } sAssigned
     (by decide) rfl (by decide) (by decide)⟩

/-- C3 counterexample: after completing the assigned job, the laborer
remains unavailable although no job that is neither "completed" nor
"cancelled" holds the laborer's phone, refuting the claimed biconditional
restricted to non-completed, non-cancelled jobs. -/
theorem availability_coupling_cex :
    laborerRajuUnavailable ∈ sCompleted.laborers ∧
    laborerRajuUnavailable.available = false ∧
    ¬ ∃ j ∈ sCompleted.jobs, j.status ≠ "completed" ∧ j.status ≠ "cancelled" ∧
      laborerRajuUnavailable.phone ∈ j.assigned_laborers := by decide

/-- C3 (amended): after every sequence of engine operations, a laborer is
unavailable exactly when the laborer's phone appears in the assigned set
of some job whose status is not "cancelled" — completed jobs keep holding
their laborers unavailable (and cancelled jobs always have empty assigned
sets). -/
theorem availability_coupling (ops : List Op) :
    ∀ w ∈ (run ops).laborers,
      (w.available = false ↔
        ∃ j ∈ (run ops).jobs, j.status ≠ "cancelled" ∧
          w.phone ∈ j.assigned_laborers) := by
  intro w hw
  obtain ⟨-, -, -, -, -, -, -, havail, -, -, -, -, hcanc⟩ := WF_run ops
  refine (havail w hw).trans ?_
  constructor
  · rintro ⟨j, hj, hp⟩
    refine ⟨j, hj, ?_, hp⟩
    intro hc
    rw [hcanc j hj hc] at hp
    simp at hp
  · rintro ⟨j, hj, -, hp⟩
    exact ⟨j, hj, hp⟩

/-- Witness for the amended C3 at the concrete assigned scenario. -/
theorem availability_coupling_witness :
    laborerRajuUnavailable.available = false ↔
      ∃ j ∈ sAssigned.jobs, j.status ≠ "cancelled" ∧
        laborerRajuUnavailable.phone ∈ j.assigned_laborers :=
  availability_coupling traceAssigned laborerRajuUnavailable (by decide)

/-- C8: after every sequence of engine operations — the serialized orders
in which the engine observes any interleaving of concurrent requests — no
laborer phone is ever held in the assigned sets of two different jobs at
once. -/
theorem no_double_booking (ops : List Op) :
    ∀ j1 ∈ (run ops).jobs, ∀ j2 ∈ (run ops).jobs, j1.job_id ≠ j2.job_id →
      ∀ p ∈ j1.assigned_laborers, p ∉ j2.assigned_laborers := by
  intro j1 hj1 j2 hj2 hne p hp
  obtain ⟨-, -, -, -, -, -, -, -, hmux, -, -, -, -⟩ := WF_run ops
  exact hmux j1 hj1 j2 hj2 hne p hp

/-- Witness for C8: in the two-job scenario the assigned mason's phone is
not in the second job's assigned set. -/
theorem no_double_booking_witness : phoneA ∉ jobSecondRecord.assigned_laborers :=
  no_double_booking traceTwoJobs jobAssignedRecord (by decide) jobSecondRecord
    (by decide) (by decide) phoneA (by decide)

theorem findLaborerByPhone_mapSkills (f : String → String) (s : EngineState) (p : String) :
    findLaborerByPhone (mapWorkerSkills f s) p =
      (findLaborerByPhone s p).map (fun w => { w with skill := f w.skill }) := by
  unfold findLaborerByPhone mapWorkerSkills
  rw [List.find?_map]
  rfl

theorem phoneCommits_mapSkills (f : String → String) (s : EngineState) (p : String) :
    phoneCommits (mapWorkerSkills f s) p = phoneCommits s p := by
  unfold phoneCommits
  rw [findLaborerByPhone_mapSkills]
  cases findLaborerByPhone s p <;> rfl

theorem phoneReason_mapSkills (f : String → String) (s : EngineState) (p : String) :
    phoneReason (mapWorkerSkills f s) p = phoneReason s p := by
  unfold phoneReason
  rw [findLaborerByPhone_mapSkills]
  cases findLaborerByPhone s p <;> rfl

theorem committedPhones_mapSkills (f : String → String) (s : EngineState) (job : Job)
    (phones : List String) :
    committedPhones (mapWorkerSkills f s) job phones = committedPhones s job phones := by
  unfold committedPhones
  exact List.filter_congr (fun p _ => phoneCommits_mapSkills f s p)

theorem rejectedPhones_mapSkills (f : String → String) (s : EngineState) (job : Job)
    (phones : List String) :
    rejectedPhones (mapWorkerSkills f s) job phones = rejectedPhones s job phones := by
  unfold rejectedPhones
  refine List.filterMap_congr ?_
  intro p _
  rw [phoneReason_mapSkills]

theorem assignCommitState_mapSkills (f : String → String) (s : EngineState) (jid : Nat)
    (job : Job) (phones : List String) :
    assignCommitState (mapWorkerSkills f s) jid job phones =
      mapWorkerSkills f (assignCommitState s jid job phones) := by
  have hC := committedPhones_mapSkills f s job phones
  show (
    { laborers :=
        (s.laborers.map (fun w => { w with skill := f w.skill })).map
          (fun w =>
            if w.phone ∈ committedPhones (mapWorkerSkills f s) job phones
            then { w with available := false } else w),
      jobs :=
        s.jobs.map (fun j =>
          if j.job_id == jid then
            { job with
              status :=
                if job.status = "open" ∧
                    committedPhones (mapWorkerSkills f s) job phones ≠ []
                then "assigned" else job.status,
              assigned_laborers :=
                job.assigned_laborers ++
                  committedPhones (mapWorkerSkills f s) job phones }
          else j),
      next_id := s.next_id } : EngineState) =
    { laborers :=
        (s.laborers.map (fun w =>
          if w.phone ∈ committedPhones s job phones
          then { w with available := false } else w)).map
          (fun w => { w with skill := f w.skill }),
      jobs :=
        s.jobs.map (fun j =>
          if j.job_id == jid then
            { job with
              status :=
                if job.status = "open" ∧ committedPhones s job phones ≠ []
                then "assigned" else job.status,
              assigned_laborers :=
                job.assigned_laborers ++ committedPhones s job phones }
          else j),
      next_id := s.next_id }
  rw [hC]
  congr 1
  rw [List.map_map, List.map_map]
  refine List.map_congr_left ?_
  intro w _
  by_cases hm : w.phone ∈ committedPhones s job phones <;>
    simp [Function.comp, hm]

theorem assignWorkers_skill_blind (f : String → String) (s : EngineState) (jid : Nat)
    (phones : List String) :
    assignWorkers (mapWorkerSkills f s) jid phones =
      (assignWorkers s jid phones).map (fun rs => (rs.1, mapWorkerSkills f rs.2)) := by
  unfold assignWorkers
  have hfind : findJob (mapWorkerSkills f s) jid = findJob s jid := rfl
  rw [hfind]
  cases hf : findJob s jid with
  | none => rfl
  | some job =>
    show (if job.status = "open" ∨ job.status = "assigned" then
        Except.ok (({ assigned_count := (committedPhones (mapWorkerSkills f s) job phones).length,
                      assigned_laborers := committedPhones (mapWorkerSkills f s) job phones,
                      rejected := rejectedPhones (mapWorkerSkills f s) job phones } :
                        AssignmentResult),
                   assignCommitState (mapWorkerSkills f s) jid job phones)
      else Except.error EngineError.invalidState) =
      Except.map (fun rs => (rs.1, mapWorkerSkills f rs.2))
        (if job.status = "open" ∨ job.status = "assigned" then
          Except.ok (({ assigned_count := (committedPhones s job phones).length,
                        assigned_laborers := committedPhones s job phones,
                        rejected := rejectedPhones s job phones } : AssignmentResult),
                     assignCommitState s jid job phones)
        else Except.error EngineError.invalidState)
    by_cases hstat : job.status = "open" ∨ job.status = "assigned"
    · rw [if_pos hstat, if_pos hstat]
      rw [committedPhones_mapSkills, rejectedPhones_mapSkills, assignCommitState_mapSkills]
      rfl
    · rw [if_neg hstat, if_neg hstat]
      rfl

theorem getAvailableLaborers_mem (laborers : List Laborer) (job : Job) (l : Laborer) :
    l ∈ getAvailableLaborers laborers job ↔
      l ∈ laborers ∧ l.available = true ∧
        (job.skill_required = "any" ∨ l.skill = job.skill_required) := by
  unfold getAvailableLaborers
  rw [List.mem_filter]
  simp [Bool.and_eq_true, Bool.or_eq_true, and_assoc]

/-- C9: skill matching is not an engine precondition — the engine's
assignment behaviour (validation verdicts, report, and resulting store) is
completely unchanged by rewriting every laborer's skill, so the engine
checks only existence and availability; skill-based filtering exists only
in the dashboard's getAvailableLaborers, which filters the modal's
choices by availability and skill equality (or the "any" skill). -/
theorem skill_matching_advisory :
    (∀ (f : String → String) (s : EngineState) (jid : Nat) (phones : List String),
      assignWorkers (mapWorkerSkills f s) jid phones =
        (assignWorkers s jid phones).map (fun rs => (rs.1, mapWorkerSkills f rs.2))) ∧
    (∀ (laborers : List Laborer) (job : Job) (l : Laborer),
      l ∈ getAvailableLaborers laborers job ↔
        l ∈ laborers ∧ l.available = true ∧
          (job.skill_required = "any" ∨ l.skill = job.skill_required)) :=
  ⟨assignWorkers_skill_blind, getAvailableLaborers_mem⟩

/-- Witness for C9 at concrete inputs: rewriting the mason's skill to
"driver" leaves the concrete assignment call's outcome unchanged, and the
modal filter criterion evaluates as stated on the concrete records. -/
theorem skill_matching_advisory_witness :
    (assignWorkers (mapWorkerSkills (fun _ => "driver") sOpen) 1 [phoneA] =
      (assignWorkers sOpen 1 [phoneA]).map
        (fun rs => (rs.1, mapWorkerSkills (fun _ => "driver") rs.2))) ∧
    (laborerRajuUnavailable ∈ getAvailableLaborers sAssigned.laborers jobAssignedRecord ↔
      laborerRajuUnavailable ∈ sAssigned.laborers ∧
        laborerRajuUnavailable.available = true ∧
        (jobAssignedRecord.skill_required = "any" ∨
          laborerRajuUnavailable.skill = jobAssignedRecord.skill_required)) :=
  ⟨skill_matching_advisory.1 (fun _ => "driver") sOpen 1 [phoneA],
   skill_matching_advisory.2 sAssigned.laborers jobAssignedRecord laborerRajuUnavailable⟩

theorem uiStep_preserves_open {u : UIState}
    (hu : ∀ j, u.selected_job = some j → j.status = "open") (e : UIEvent) :
    ∀ j, ((uiStep u e).1).selected_job = some j → j.status = "open" := by
  cases e with
  | clickAssign job =>
    intro j hj
    simp only [uiStep] at hj
    by_cases hoff : jobCardOffersAssign job = true
    · rw [if_pos hoff] at hj
      have hj' : some job = some j := hj
      injection hj' with hj2
      subst hj2
      unfold jobCardOffersAssign at hoff
      simpa using hoff
    · rw [if_neg hoff] at hj
      exact hu j hj
  | toggleLaborer p =>
    intro j hj
    exact hu j hj
  | confirmAssign =>
    intro j hj
    simp only [uiStep] at hj
    cases hsel : u.selected_job with
    | none =>
      rw [hsel] at hj
      exact hu j hj
    | some j0 =>
      rw [hsel] at hj
      split at hj
      next j2 heq =>
        injection heq with heq2
        subst heq2
        split at hj
        · first
          | exact hu j hj
          | simp at hj
        · first
          | exact hu j hj
          | simp at hj
      next heq => exact absurd heq (by simp)
  | cancelModal =>
    intro j hj
    simp [uiStep] at hj

theorem uiStep_emits_open {u : UIState}
    (hu : ∀ j, u.selected_job = some j → j.status = "open") (e : UIEvent) :
    ∀ req ∈ (uiStep u e).2, req.1.status = "open" := by
  cases e with
  | clickAssign job =>
    intro req hreq
    simp only [uiStep] at hreq
    by_cases hoff : jobCardOffersAssign job = true
    · rw [if_pos hoff] at hreq
      simp at hreq
    · rw [if_neg hoff] at hreq
      simp at hreq
  | toggleLaborer p =>
    intro req hreq
    simp [uiStep] at hreq
  | cancelModal =>
    intro req hreq
    simp [uiStep] at hreq
  | confirmAssign =>
    intro req hreq
    simp only [uiStep] at hreq
    cases hsel : u.selected_job with
    | none =>
      rw [hsel] at hreq
      simp at hreq
    | some j0 =>
      rw [hsel] at hreq
      split at hreq
      next j2 heq =>
        injection heq with heq2
        subst heq2
        split at hreq
        · first
          | (rcases List.mem_singleton.mp hreq with rfl
             exact hu j0 hsel)
          | simp at hreq
        · first
          | (rcases List.mem_singleton.mp hreq with rfl
             exact hu j0 hsel)
          | simp at hreq
      next heq => exact absurd heq (by simp)

theorem uiRun_requests_open {u : UIState}
    (hu : ∀ j, u.selected_job = some j → j.status = "open") (events : List UIEvent) :
    ∀ req ∈ (uiRun u events).2, req.1.status = "open" := by
  induction events generalizing u with
  | nil =>
    intro req hreq
    simp [uiRun] at hreq
  | cons e es ih =>
    intro req hreq
    have hsplit : (uiRun u (e :: es)).2 = (uiStep u e).2 ++ (uiRun (uiStep u e).1 es).2 :=
      rfl
    rw [hsplit] at hreq
    rcases List.mem_append.mp hreq with h1 | h2
    · exact uiStep_emits_open hu e req h1
    · exact ih (uiStep_preserves_open hu e) req h2

/-- C10: the Jobs page offers the "Assign Laborers" action exactly on
cards whose job status is "open"; consequently every assignment request
the page issues targets a job rendered with status "open" — never one
already in status "assigned" — even though the engine itself accepts
further assignments on a job in status "assigned". -/
theorem assign_button_only_open :
    (∀ job : Job, jobCardOffersAssign job = true ↔ job.status = "open") ∧
    (∀ events : List UIEvent, ∀ req ∈ (uiRun uiInit events).2, req.1.status = "open") ∧
    (∀ (s : EngineState) (jid : Nat) (phones : List String) (job : Job),
      findJob s jid = some job → job.status = "assigned" →
      ∃ r s', assignWorkers s jid phones = Except.ok (r, s')) := by
  refine ⟨?_, ?_, ?_⟩
  · intro job
    unfold jobCardOffersAssign
    simp
  · intro events
    refine uiRun_requests_open ?_ events
    intro j hj
    simp [uiInit] at hj
  · intro s jid phones job hfind hstat
    refine ⟨{ assigned_count := (committedPhones s job phones).length,
              assigned_laborers := committedPhones s job phones,
              rejected := rejectedPhones s job phones },
            assignCommitState s jid job phones, ?_⟩
    unfold assignWorkers
    rw [hfind]
    exact if_pos (Or.inr hstat)

/-- Witness for C10 at concrete inputs: a concrete interaction sequence
issues only requests for the open job, and the engine accepts a further
assignment on the concrete job already in status "assigned". -/
theorem assign_button_only_open_witness :
    (jobCardOffersAssign jobOpenRecord = true ↔ jobOpenRecord.status = "open") ∧
    (∀ req ∈ (uiRun uiInit [UIEvent.clickAssign jobOpenRecord,
        UIEvent.toggleLaborer phoneA, UIEvent.confirmAssign]).2,
      req.1.status = "open") ∧
    (∃ r s', assignWorkers sAssigned 1 [phoneA] = Except.ok (r, s')) :=
  ⟨assign_button_only_open.1 jobOpenRecord,
   fun req hreq => assign_button_only_open.2.1
     [UIEvent.clickAssign jobOpenRecord, UIEvent.toggleLaborer phoneA,
      UIEvent.confirmAssign] req hreq,
   assign_button_only_open.2.2 sAssigned 1 [phoneA] jobAssignedRecord (by decide) rfl⟩

end ShramSetu
